import Mathlib

/-!
Verification development for the `meshmode` discretization-connection core
(`meshmode/discretization/connection/opposite_face.py` and
`meshmode/discretization/connection/projection.py`).

The embedding works over `ℚ` (the source computes with IEEE floats; the
algorithms under study are exact ring/order computations, and the machine
epsilon of the array dtype is kept as an explicit parameter `eps`).
Node coordinate arrays of numpy shape `(ambient_dim, nelements, nnodes)`
become functions `Fin a → Fin n → Fin t → ℚ`.  External collaborators
(array context freeze/thaw, modepy basis objects, `numpy.linalg.lstsq`,
mesh adjacency construction) are parameters of the embedded functions,
exactly at the call boundaries where the source invokes them.
-/

namespace Meshmode

/-! ## Small list-maximum toolkit

`numpy`'s `np.max` over a (flattened, nonempty, elementwise nonnegative)
array is modelled by a right fold of `max` with base `0`. -/

def listMax (l : List ℚ) : ℚ := l.foldr max 0

/-! ## Exact-permutation tier — `_find_src_unit_nodes_by_matching`

Source: `opposite_face.py`, lines 109-135.  The numpy computation
`la.norm(dist_vecs, axis=0, ord=2) < tol` is the strict comparison of a
Euclidean norm against `tol`; since both sides are nonnegative in the
source (`tol = 1e4 * eps > 0`), it is encoded on squares:
`‖v‖ < tol ↔ ∑ v² < tol²`. -/

/-- Squared Euclidean distance between target node `i` and source node `j`
of element `e` (`dist_vecs` contracted over the ambient axis). -/
def distSq {a n s t : ℕ} (tgt : Fin a → Fin n → Fin t → ℚ)
    (src : Fin a → Fin n → Fin s → ℚ) (e : Fin n) (i : Fin t) (j : Fin s) : ℚ :=
  ∑ c : Fin a, (tgt c e i - src c e j) ^ 2

/-- `is_close[e, i, j]`: target node `i` and source node `j` of element `e`
are at Euclidean distance `< tol` (squared encoding of
`la.norm(dist_vecs, axis=0, ord=2) < tol`). -/
def isClose {a n s t : ℕ} (tol : ℚ) (tgt : Fin a → Fin n → Fin t → ℚ)
    (src : Fin a → Fin n → Fin s → ℚ) (e : Fin n) (i : Fin t) (j : Fin s) : Prop :=
  distSq tgt src e i j < tol ^ 2

instance {a n s t : ℕ} (tol : ℚ) (tgt : Fin a → Fin n → Fin t → ℚ)
    (src : Fin a → Fin n → Fin s → ℚ) (e : Fin n) (i : Fin t) (j : Fin s) :
    Decidable (isClose tol tgt src e i j) := by
  unfold isClose; infer_instance

/-- `num_close_vertices[e, i]`: number of source nodes of element `e` within
`tol` of target node `i` (`np.sum(is_close.astype(np.int32), axis=-1)`). -/
def numClose {a n s t : ℕ} (tol : ℚ) (tgt : Fin a → Fin n → Fin t → ℚ)
    (src : Fin a → Fin n → Fin s → ℚ) (e : Fin n) (i : Fin t) : ℕ :=
  (Finset.univ.filter (fun j => isClose tol tgt src e i j)).card

/-- `_find_src_unit_nodes_by_matching`: if every target node has exactly one
close source node (`(num_close_vertices == 1).all()`), the match is a pure
index permutation and the source group's reference unit nodes are returned
reindexed by it (`src_grp.unit_nodes[:, source_indices]`, where
`source_indices = np.where(is_close)[-1]` picks the unique close source
node); otherwise the tier fails and returns `None`. -/
def findSrcUnitNodesByMatching {a n s t d : ℕ} (tol : ℚ)
    (tgt : Fin a → Fin n → Fin t → ℚ) (src : Fin a → Fin n → Fin s → ℚ)
    (unitNodes : Fin d → Fin s → ℚ) :
    Option (Fin d → Fin n → Fin t → ℚ) :=
  if h : ∀ e i, numClose tol tgt src e i = 1 then
    some (fun c e i =>
      unitNodes c ((Finset.univ.filter (fun j => isClose tol tgt src e i j)).min'
        (Finset.card_pos.mp (by have hc := h e i; unfold numClose at hc; omega))))
  else
    none

/-! ## Batch partitioner — `_find_src_unit_nodes_batches`

Source: `opposite_face.py`, lines 319-348.  A greedy clustering: the first
undone element is the template; every undone element whose `result_unit_nodes`
deviate from the template's by less than `tol` in max-norm joins its batch.
The python `while True` loop terminates only because each round marks the
template done (true whenever `tol > 0`); the embedding makes that clock an
explicit fuel argument (`none` models the source looping forever). -/

/-- `unit_node_dist`: max-norm deviation between the unit-node patterns of
elements `e` and `f` (`np.max(np.max(np.abs(u[:, e, :] - u[:, f, :]),
axis=2), axis=0)`, flattened over both axes). -/
def unitNodeDist {d n t : ℕ} (u : Fin d → Fin n → Fin t → ℚ) (e f : Fin n) : ℚ :=
  listMax (((List.finRange d).map (fun c =>
    (List.finRange t).map (fun i => |u c e i - u c f i|))).flatten)

/-- One round of the greedy clustering yields the pair
(template = first undone element, its batch of close elements). -/
def findSrcUnitNodesBatchesAux {d n t : ℕ} (u : Fin d → Fin n → Fin t → ℚ)
    (tol : ℚ) : ℕ → List (Fin n) → Option (List (Fin n × List (Fin n)))
  | _, [] => some []
  | 0, _ :: _ => none
  | fuel + 1, tmpl :: rest =>
      let todo := tmpl :: rest
      let close := todo.filter (fun e => decide (unitNodeDist u e tmpl < tol))
      let remaining := todo.filter (fun e => !decide (unitNodeDist u e tmpl < tol))
      (findSrcUnitNodesBatchesAux u tol fuel remaining).map
        (fun gs => (tmpl, close) :: gs)

/-- A rectangular numpy array with its shape. -/
structure RectArray where
  rows : ℕ
  cols : ℕ
  entry : Fin rows → Fin cols → ℚ

/-- `InterpolationBatch` (fields as consumed/produced by the connection
builders; `result_unit_nodes` is the 2D array `(dim, n_to_unit_nodes)`
shared by every element of the batch). -/
structure InterpolationBatch where
  fromGroupIndex : ℕ
  fromElementIndices : List ℤ
  toElementIndices : List ℤ
  resultUnitNodes : RectArray
  toElementFace : Option ℕ

/-- The `InterpolationBatch` yielded for one greedy cluster
(`template_unit_nodes = src_unit_nodes[:, todo_elements[0], :]`). -/
def batchOfGroup {d n t : ℕ} (u : Fin d → Fin n → Fin t → ℚ) (iSrcGrp : ℕ)
    (tgtIdx srcIdx : Fin n → ℤ) (g : Fin n × List (Fin n)) : InterpolationBatch :=
  { fromGroupIndex := iSrcGrp
    fromElementIndices := g.2.map srcIdx
    toElementIndices := g.2.map tgtIdx
    resultUnitNodes := ⟨d, t, fun c i => u c g.1 i⟩
    toElementFace := none }

/-- `_find_src_unit_nodes_batches`: greedy partition of the matched elements
into interpolation batches. -/
def findSrcUnitNodesBatches {d n t : ℕ} (u : Fin d → Fin n → Fin t → ℚ)
    (tol : ℚ) (iSrcGrp : ℕ) (tgtIdx srcIdx : Fin n → ℤ) :
    Option (List InterpolationBatch) :=
  (findSrcUnitNodesBatchesAux u tol n (List.finRange n)).map
    (List.map (batchOfGroup u iSrcGrp tgtIdx srcIdx))

/-! ## Gauss-Newton tier — `_find_src_unit_nodes_via_gauss_newton`

Source: `opposite_face.py`, lines 142-312.  The modepy basis object
(`functions`, `gradients`), the inverse-transpose Vandermonde matrix
`la.inv(vdm.T)` and the `la.lstsq` fallback are external collaborators and
enter as parameters; everything the source itself computes with them
(interpolation coefficients, partition-of-unity assertion, mapped points,
Jacobian, Cramer solves, iteration control) is embedded. -/

/-- `np.max(np.abs(resid))` over a `(a, n, t)`-shaped array. -/
def maxAbs {a n t : ℕ} (x : Fin a → Fin n → Fin t → ℚ) : ℚ :=
  listMax (((List.finRange a).map (fun c =>
    ((List.finRange n).map (fun e =>
      (List.finRange t).map (fun i => |x c e i|))).flatten)).flatten)

/-- `intp_coeffs = np.einsum("fj,jet->fet", inv_t_vdm, basis_at_unit_nodes)`
where `basis_at_unit_nodes[j, e, i] = basisFns j (unit_nodes[:, e, i])`. -/
def intpCoeffs {F d n t : ℕ} (basisFns : Fin F → (Fin d → ℚ) → ℚ)
    (invTVdm : Fin F → Fin F → ℚ) (u : Fin d → Fin n → Fin t → ℚ) :
    Fin F → Fin n → Fin t → ℚ :=
  fun f e i => ∑ j, invTVdm f j * basisFns j (fun c => u c e i)

/-- `one_deviation = np.abs(np.sum(intp_coeffs, axis=0) - 1)`: deviation of
the summed interpolation coefficients from 1 at node `(e, i)`. -/
def oneDeviation {F d n t : ℕ} (basisFns : Fin F → (Fin d → ℚ) → ℚ)
    (invTVdm : Fin F → Fin F → ℚ) (u : Fin d → Fin n → Fin t → ℚ)
    (e : Fin n) (i : Fin t) : ℚ :=
  |(∑ f, intpCoeffs basisFns invTVdm u f e i) - 1|

/-- `np.max(one_deviation)` (the value carried by the failing assertion). -/
def maxOneDeviation {F d n t : ℕ} (basisFns : Fin F → (Fin d → ℚ) → ℚ)
    (invTVdm : Fin F → Fin F → ℚ) (u : Fin d → Fin n → Fin t → ℚ) : ℚ :=
  listMax (((List.finRange n).map (fun e =>
    (List.finRange t).map (fun i => oneDeviation basisFns invTVdm u e i))).flatten)

/-- `apply_map` (source lines 161-180): evaluate the source basis at the
current unit nodes, form interpolation coefficients via the
inverse-transpose Vandermonde, `assert` the partition of unity
(`(one_deviation < tol).all()`, fatal with `np.max(one_deviation)`
otherwise), and contract with the source boundary nodes
(`np.einsum("fet,aef->aet", intp_coeffs, src_bdry_nodes)`).
The final `assert tgt_bdry_nodes.shape == mapped.shape` is a shape check
that holds by typing here. -/
def applyMap {F a d n t : ℕ} (tol : ℚ) (basisFns : Fin F → (Fin d → ℚ) → ℚ)
    (invTVdm : Fin F → Fin F → ℚ) (srcBdryNodes : Fin a → Fin n → Fin F → ℚ)
    (u : Fin d → Fin n → Fin t → ℚ) :
    Except ℚ (Fin a → Fin n → Fin t → ℚ) :=
  if ∀ e i, oneDeviation basisFns invTVdm u e i < tol then
    .ok (fun c e i => ∑ f, intpCoeffs basisFns invTVdm u f e i * srcBdryNodes c e f)
  else
    .error (maxOneDeviation basisFns invTVdm u)

/-- `get_map_jacobian` (source lines 182-199):
`np.einsum("rfet,aef->raet", dintp_coeffs, src_bdry_nodes)` with
`dintp_coeffs = np.einsum("fj,rjet->rfet", inv_t_vdm, dbasis_at_unit_nodes)`. -/
def getMapJacobian {F a d n t : ℕ} (gradFns : Fin F → (Fin d → ℚ) → Fin d → ℚ)
    (invTVdm : Fin F → Fin F → ℚ) (srcBdryNodes : Fin a → Fin n → Fin F → ℚ)
    (u : Fin d → Fin n → Fin t → ℚ) :
    Fin d → Fin a → Fin n → Fin t → ℚ :=
  fun r c e i =>
    ∑ f, (∑ j, invTVdm f j * gradFns j (fun c' => u c' e i) r) * srcBdryNodes c e f

/-- The per-iteration linear solve for `df_inv_resid` (source lines 255-283):
normal equations `ata = np.einsum("ikes,jkes->ijes", df, df)`,
`atb = np.einsum("ikes,kes->ies", df, resid)`, then direct division for
`dim == 1`, Cramer's rule for `dim == 2`, and the non-vectorized
`la.lstsq` fallback (an external routine, here the parameter `lstsq`) for
`dim ≥ 3`. -/
def newtonSolve {a d n t : ℕ}
    (lstsq : (Fin a → Fin d → ℚ) → (Fin a → ℚ) → (Fin d → ℚ))
    (df : Fin d → Fin a → Fin n → Fin t → ℚ)
    (resid : Fin a → Fin n → Fin t → ℚ) :
    Fin d → Fin n → Fin t → ℚ :=
  let ata : Fin d → Fin d → Fin n → Fin t → ℚ :=
    fun i j e s => ∑ k, df i k e s * df j k e s
  let atb : Fin d → Fin n → Fin t → ℚ :=
    fun i e s => ∑ k, df i k e s * resid k e s
  if d = 1 then
    fun r e s => atb r e s / ata r r e s
  else if h2 : d = 2 then
    fun r e s =>
      let i0 : Fin d := ⟨0, by omega⟩
      let i1 : Fin d := ⟨1, by omega⟩
      let det := ata i0 i0 e s * ata i1 i1 e s - ata i0 i1 e s * ata i1 i0 e s
      if r = i0 then
        1 / det * (ata i1 i1 e s * atb i0 e s - ata i1 i0 e s * atb i1 e s)
      else
        1 / det * (-ata i0 i1 e s * atb i0 e s + ata i0 i0 e s * atb i1 e s)
  else
    fun r e s => lstsq (fun k r' => df r' k e s) (fun k => resid k e s) r

/-- Fatal conditions of the cross-face matching pipeline. -/
inductive MatchError where
  /-- The partition-of-unity `assert` in `apply_map` fired; carries
  `np.max(one_deviation)`. -/
  | gnAssertFailed (maxDev : ℚ)
  /-- `RuntimeError("Gauss-Newton ... did not converge (residual: %g)")`;
  carries the final residual magnitude. -/
  | gnDidNotConverge (resid : ℚ)
  /-- The greedy batch loop of `_find_src_unit_nodes_batches` never
  terminates (possible only for `tol ≤ 0`). -/
  | partitionFuelOut

/-- The `while True` loop of `_find_src_unit_nodes_via_gauss_newton`
(source lines 244-312): compute the residual `apply_map(u) - tgt`, the
Newton update, then return the updated nodes if `max(|resid|) < tol`,
raise `RuntimeError` once `niter > 10`, and iterate otherwise. -/
def gaussNewtonIteration {a d n t : ℕ}
    (applyMapE : (Fin d → Fin n → Fin t → ℚ) → Except ℚ (Fin a → Fin n → Fin t → ℚ))
    (dfInvResid : (Fin d → Fin n → Fin t → ℚ) → (Fin a → Fin n → Fin t → ℚ) →
      (Fin d → Fin n → Fin t → ℚ))
    (tgt : Fin a → Fin n → Fin t → ℚ) (tol : ℚ)
    (niter : ℕ) (u : Fin d → Fin n → Fin t → ℚ) :
    Except MatchError (Fin d → Fin n → Fin t → ℚ) :=
  match applyMapE u with
  | .error dev => .error (.gnAssertFailed dev)
  | .ok mapped =>
      let resid : Fin a → Fin n → Fin t → ℚ := fun c e i => mapped c e i - tgt c e i
      let dfir := dfInvResid u resid
      let u' : Fin d → Fin n → Fin t → ℚ := fun c e i => u c e i - dfir c e i
      let maxResid := maxAbs resid
      if maxResid < tol then
        .ok u'
      else if _h : niter + 1 > 10 then
        .error (.gnDidNotConverge maxResid)
      else
        gaussNewtonIteration applyMapE dfInvResid tgt tol (niter + 1) u'
termination_by 11 - niter
decreasing_by omega

/-- `_find_src_unit_nodes_via_gauss_newton` with the per-iteration map
application and linear solve as parameters: start from the centroid initial
guess (`np.mean(src_mesh_grp.vertex_unit_coordinates(), axis=0)`, external
mesh data, broadcast to every element and node) and run the loop from
`niter = 0`. -/
def findSrcUnitNodesViaGaussNewton {a d n t : ℕ}
    (applyMapE : (Fin d → Fin n → Fin t → ℚ) → Except ℚ (Fin a → Fin n → Fin t → ℚ))
    (dfInvResid : (Fin d → Fin n → Fin t → ℚ) → (Fin a → Fin n → Fin t → ℚ) →
      (Fin d → Fin n → Fin t → ℚ))
    (tgt : Fin a → Fin n → Fin t → ℚ) (tol : ℚ) (initialGuess : Fin d → ℚ) :
    Except MatchError (Fin d → Fin n → Fin t → ℚ) :=
  gaussNewtonIteration applyMapE dfInvResid tgt tol 0 (fun c _ _ => initialGuess c)

/-- The fully-instantiated Gauss-Newton solver: `apply_map` built from the
source basis functions, the Jacobian from its gradients, and the linear
solve from `newtonSolve`. -/
def findSrcUnitNodesViaGaussNewtonFull {F a d n t : ℕ}
    (basisFns : Fin F → (Fin d → ℚ) → ℚ) (gradFns : Fin F → (Fin d → ℚ) → Fin d → ℚ)
    (invTVdm : Fin F → Fin F → ℚ) (srcBdryNodes : Fin a → Fin n → Fin F → ℚ)
    (lstsq : (Fin a → Fin d → ℚ) → (Fin a → ℚ) → (Fin d → ℚ))
    (tgt : Fin a → Fin n → Fin t → ℚ) (tol : ℚ) (initialGuess : Fin d → ℚ) :
    Except MatchError (Fin d → Fin n → Fin t → ℚ) :=
  findSrcUnitNodesViaGaussNewton
    (applyMap tol basisFns invTVdm srcBdryNodes)
    (fun u resid => newtonSolve lstsq (getMapJacobian gradFns invTVdm srcBdryNodes u) resid)
    tgt tol initialGuess


/-- One Gauss-Newton update as a state map, for a total map application
`g` (`u ← u - df_inv_resid` with `resid = apply_map(u) - tgt`): names the
loop's transition for the exit-characterization theorems. -/
def gnStep {a d n t : ℕ}
    (g : (Fin d → Fin n → Fin t → ℚ) → (Fin a → Fin n → Fin t → ℚ))
    (dfInvResid : (Fin d → Fin n → Fin t → ℚ) → (Fin a → Fin n → Fin t → ℚ) →
      (Fin d → Fin n → Fin t → ℚ))
    (tgt : Fin a → Fin n → Fin t → ℚ) :
    (Fin d → Fin n → Fin t → ℚ) → (Fin d → Fin n → Fin t → ℚ) :=
  fun u => fun c e i =>
    u c e i - dfInvResid u (fun c' e' i' => g u c' e' i' - tgt c' e' i') c e i

/-- `max(|apply_map(u) - tgt|)`: the residual magnitude tested by the loop. -/
def gnResid {a d n t : ℕ}
    (g : (Fin d → Fin n → Fin t → ℚ) → (Fin a → Fin n → Fin t → ℚ))
    (tgt : Fin a → Fin n → Fin t → ℚ) (u : Fin d → Fin n → Fin t → ℚ) : ℚ :=
  maxAbs (fun c e i => g u c e i - tgt c e i)


/-! ## `_make_cross_face_batches`

Source: `opposite_face.py`, lines 48-102.  The node gathering
(`thaw_to_numpy(actx, ary[i_grp])[element_indices]` composed with the
adjacency's affine maps) happens through external array-context and
`AffineMap` collaborators; the embedded function receives the resulting
target/source boundary node arrays.  The Gauss-Newton tier (whose basis
data is likewise external) enters as the parameter `gn`, handed the
tolerance exactly as the source hands `tol`. -/

/-- Turn solved-for unit nodes into batches, treating fuel exhaustion of
the greedy loop (the source spinning forever) as a fatal condition. -/
def processUnitNodes {d n t : ℕ} (tol : ℚ) (iSrcGrp : ℕ)
    (tgtIdx srcIdx : Fin n → ℤ) (u : Fin d → Fin n → Fin t → ℚ) :
    Except MatchError (List InterpolationBatch) :=
  match findSrcUnitNodesBatches u tol iSrcGrp tgtIdx srcIdx with
  | some bs => .ok bs
  | none => .error .partitionFuelOut

/-- `_make_cross_face_batches`: for a 0-dimensional target boundary, return
one batch pairing the given element indices with the source group's unit
nodes and no face; otherwise set `tol = 1e4 * eps` (line 80,
`1e4 * np.finfo(dtype).eps`), try the exact-permutation tier, and fall back
to the Gauss-Newton tier, finally partitioning into batches. -/
def makeCrossFaceBatches {a n s t d : ℕ} (tgtDim : ℕ) (eps : ℚ) (iSrcGrp : ℕ)
    (srcGrpUnitNodes : Fin d → Fin s → ℚ)
    (tgt : Fin a → Fin n → Fin t → ℚ) (src : Fin a → Fin n → Fin s → ℚ)
    (tgtIdx srcIdx : Fin n → ℤ)
    (gn : ℚ → Except MatchError (Fin d → Fin n → Fin t → ℚ)) :
    Except MatchError (List InterpolationBatch) :=
  if tgtDim = 0 then
    .ok [{ fromGroupIndex := iSrcGrp
           fromElementIndices := (List.finRange n).map srcIdx
           toElementIndices := (List.finRange n).map tgtIdx
           resultUnitNodes := ⟨d, s, srcGrpUnitNodes⟩
           toElementFace := none }]
  else
    let tol := 10000 * eps
    match findSrcUnitNodesByMatching tol tgt src srcGrpUnitNodes with
    | some u => processUnitNodes tol iSrcGrp tgtIdx srcIdx u
    | none => gn tol >>= processUnitNodes tol iSrcGrp tgtIdx srcIdx

/-! ## Connection builder — `make_opposite_face_connection`

Source: `opposite_face.py`, lines 389-528.  The cross-face matching on the
gathered node arrays is the parameter `cfb` (standing for
`_make_cross_face_batches` applied to the two boundary discretizations'
node data, which lives behind the external array context); the index
bookkeeping the function itself performs is embedded.  Element indices are
`ℤ` (numpy integer arrays, `-1` a sentinel in lookup tables), face and
group indices `ℕ`. -/

/-- A batch of the consumed volume-to-boundary restriction connection
(its `result_unit_nodes` are not used by the builder). -/
structure VbcBatch where
  fromGroupIndex : ℕ
  fromElementIndices : List ℤ
  toElementIndices : List ℤ
  toElementFace : Option ℕ

/-- The fields of a `meshmode.mesh.InteriorAdjacencyGroup` the builder
reads (the attached affine map is forwarded untouched to the matcher and
is part of the external node-gathering boundary here). -/
structure AdjGroup where
  ineighborGroup : ℕ
  elements : List ℤ
  elementFaces : List ℕ
  neighbors : List ℤ
  neighborFaces : List ℕ

/-- The per-mesh data `make_opposite_face_connection` consumes:
`nfaces` per volume mesh group, `nelements` per boundary (target)
discretization group, the restriction connection's batches per group, and
the interior facial adjacency groups per target group. -/
structure OppositeFaceInput where
  volGroupNFaces : List ℕ
  bdryGroupNElements : List ℕ
  vbcGroups : List (List VbcBatch)
  adjGroups : List (List AdjGroup)

/-- Fatal conditions of the connection builders (all `assert`s in the
source, raised immediately and never retried). -/
inductive BuildError where
  /-- The input is not a volume-to-boundary restriction connection, or the
  group counts disagree (asserts at lines 400-407). -/
  | invalidRestriction
  /-- `_find_ibatch_for_face`: not exactly one restriction batch for a
  face (assert at line 359). -/
  | faceBatchNotUnique
  /-- `assert np.array_equal(vbc_els[vbc_used_els], adj_els)` failed
  (line 465). -/
  | indexMismatch
  /-- A `(matched_*_bdry_el_indices >= 0).all()` assert of the partition
  builder failed (lines 615, 619). -/
  | negativeIndex
  /-- `_make_cross_face_batches` raised. -/
  | matchFailed (e : MatchError)

/-- The connection object assembled by the builders
(`DirectDiscretizationConnection(from_discr=…, to_discr=…, groups=…,
is_surjective=True)`); `toDiscrNElements` records the element count of
each target-discretization group. -/
structure BuiltConnection where
  groups : List (List InterpolationBatch)
  isSurjective : Bool
  toDiscrNElements : List ℕ

/-- `_make_bdry_el_lookup_table` (lines 366-382): a table mapping
`(volume element, face)` to the boundary element number, filled `-1` and
overwritten batch by batch (later assignments win, as for numpy fancy
assignment). -/
def makeBdryElLookupTable (batches : List VbcBatch) (v : ℤ) (f : ℕ) : ℤ :=
  batches.foldl (fun acc b =>
    match b.toElementFace with
    | some bf =>
        (b.fromElementIndices.zip b.toElementIndices).foldl
          (fun acc2 p => if p.1 = v ∧ bf = f then p.2 else acc2) acc
    | none => acc) (-1)

/-- `_find_ibatch_for_face` (lines 353-363): the unique restriction batch
whose `to_element_face` is `iface` (fatal otherwise). -/
def findIbatchForFace (batches : List VbcBatch) (iface : ℕ) :
    Except BuildError VbcBatch :=
  match batches.filter (fun b => b.toElementFace == some iface) with
  | [fb] => .ok fb
  | _ => .error .faceBatchNotUnique

/-- Positions `k` with `faces[k] == iface`
(the boolean mask `adj.element_faces == i_face_tgt`). -/
def selectPositions (faces : List ℕ) (iface : ℕ) : List ℕ :=
  (List.range faces.length).filter (fun k => faces.getD k 0 == iface)

/-- The body of the innermost loop of `make_opposite_face_connection`
(lines 429-516): intersect the adjacency group with the restriction batch
of face `iFace`, resolve target and source boundary element indices, run
the cross-face matcher and extend the target group's batch list.  The
`argsort`/`searchsorted` subset resolution is modelled by first-occurrence
position lookup, with which it agrees whenever the subsequent
`assert np.array_equal(vbc_els[vbc_used_els], adj_els)` passes. -/
def processFace
    (cfb : ℕ → ℕ → List ℤ → List ℤ → Except MatchError (List InterpolationBatch))
    (input : OppositeFaceInput) (srcLookup : ℤ → ℕ → ℤ)
    (iSrc iTgt iFace : ℕ) (adj : AdjGroup)
    (parts : ℕ → List InterpolationBatch) :
    Except BuildError (ℕ → List InterpolationBatch) := do
  let fb ← findIbatchForFace (input.vbcGroups.getD iTgt []) iFace
  let sel := selectPositions adj.elementFaces iFace
  let adjEls := sel.map (fun k => adj.elements.getD k 0)
  if adjEls.isEmpty then
    -- an adjacency group may contribute zero elements for a face: skip
    pure parts
  else
    let vbcEls := fb.fromElementIndices
    let tgtBdryIdx ←
      if adjEls.length = vbcEls.length then
        -- same length: identity mapping, assert equal ordering
        if vbcEls = adjEls then pure fb.toElementIndices
        else throw BuildError.indexMismatch
      else
        -- genuine subset: resolve positions of adj_els inside vbc_els
        adjEls.mapM (fun el =>
          match vbcEls.findIdx? (fun x => x == el) with
          | some p => pure (fb.toElementIndices.getD p 0)
          | none => throw BuildError.indexMismatch)
    let srcVol := sel.map (fun k => adj.neighbors.getD k 0)
    let srcFaces := sel.map (fun k => adj.neighborFaces.getD k 0)
    let srcBdryIdx := (srcVol.zip srcFaces).map (fun p => srcLookup p.1 p.2)
    let bs ← (cfb iTgt iSrc tgtBdryIdx srcBdryIdx).mapError BuildError.matchFailed
    pure (Function.update parts iTgt (parts iTgt ++ bs))

/-- The input-validation asserts of `make_opposite_face_connection`
(lines 399-407): every restriction batch's `from_group_index` equals its
enclosing group index and its `to_element_face` is set. -/
def validRestriction (input : OppositeFaceInput) : Bool :=
  (List.range input.vbcGroups.length).all (fun i =>
    (input.vbcGroups.getD i []).all (fun b =>
      b.fromGroupIndex == i && b.toElementFace.isSome))
  && input.vbcGroups.length == input.volGroupNFaces.length
  && input.vbcGroups.length == input.bdryGroupNElements.length

/-- The nested loops of `make_opposite_face_connection` (lines 413-516),
accumulating per-target-group batch lists. -/
def buildOppositeFaceGroups
    (cfb : ℕ → ℕ → List ℤ → List ℤ → Except MatchError (List InterpolationBatch))
    (input : OppositeFaceInput) :
    Except BuildError (ℕ → List InterpolationBatch) :=
  if validRestriction input then
    let ngrps := input.vbcGroups.length
    (List.range ngrps).foldlM (fun parts iSrc =>
      let srcLookup := makeBdryElLookupTable (input.vbcGroups.getD iSrc [])
      (List.range ngrps).foldlM (fun parts iTgt =>
        ((input.adjGroups.getD iTgt []).filter
            (fun adj => adj.ineighborGroup == iSrc)).foldlM
          (fun parts adj =>
            (List.range (input.volGroupNFaces.getD iTgt 0)).foldlM
              (fun parts iFace => processFace cfb input srcLookup iSrc iTgt iFace adj parts)
              parts)
          parts)
        parts)
      (fun _ => [])
  else
    .error .invalidRestriction

/-- `make_opposite_face_connection`: validate, run the loops, assemble a
`DirectDiscretizationConnection` with `is_surjective=True`. -/
def makeOppositeFaceConnection
    (cfb : ℕ → ℕ → List ℤ → List ℤ → Except MatchError (List InterpolationBatch))
    (input : OppositeFaceInput) : Except BuildError BuiltConnection :=
  (buildOppositeFaceGroups cfb input).map (fun parts =>
    { groups := (List.range input.vbcGroups.length).map parts
      isSurjective := true
      toDiscrNElements := input.bdryGroupNElements })

/-! ## Connection builder — `make_partition_connection`

Source: `opposite_face.py`, lines 536-637.  `find_group_indices` (from
`meshmode.mesh.processing`, resolving global volume element numbers to
local group indices) is an external collaborator and enters as a
parameter, as does the cross-face matcher `cfb`. -/

/-- The fields of a remote `InterPartAdjacencyGroup` the builder reads. -/
structure InterPartAdjGroup where
  igroup : ℕ
  elements : List ℤ
  elementFaces : List ℕ
  neighbors : List ℤ
  neighborFaces : List ℕ

/-- `meshmode.distributed.RemoteGroupInfo` fields consumed. -/
structure RemoteGroupInfo where
  volElemIndices : List ℤ
  bdryFaces : List ℕ
  bdryElemIndices : List ℤ
  interPartAdjGroups : List InterPartAdjGroup

/-- The data `make_partition_connection` consumes from the local
boundary connection and mesh. -/
structure PartitionInput where
  localBaseElementNrs : List ℤ
  localVbcGroups : List (List VbcBatch)
  localNVolGroups : ℕ
  localNBdryGroups : ℕ
  localBdryGroupNElements : List ℕ
  remoteGroupInfos : List RemoteGroupInfo

/-- The `remote_vol_to_bdry` lookup table (lines 585-595), filled `-1`
and written from the remote index arrays (later writes win). -/
def mkRemoteVolToBdry (rgi : RemoteGroupInfo) (v : ℤ) (f : ℕ) : ℤ :=
  ((rgi.volElemIndices.zip rgi.bdryFaces).zip rgi.bdryElemIndices).foldl
    (fun acc p => if p.1.1 = v ∧ p.1.2 = f then p.2 else acc) (-1)

/-- `np.unique` of a list of group indices: sorted distinct values. -/
def uniqueSorted (l : List ℕ) : List ℕ :=
  (l.foldr insert (∅ : Finset ℕ)).sort (· ≤ ·)

/-- The per-local-group body of `make_partition_connection`
(lines 597-630): build the local lookup table, select the adjacency
entries resolving to group `g`, look up matched local and remote boundary
element indices (fatal if any is `-1`), run the matcher, extend. -/
def processLocalGrp
    (cfb : ℕ → ℕ → List ℤ → List ℤ → Except MatchError (List InterpolationBatch))
    (input : PartitionInput) (rgi : RemoteGroupInfo) (ipag : InterPartAdjGroup)
    (iLocalGrps : List ℕ) (g : ℕ) (parts : ℕ → List InterpolationBatch) :
    Except BuildError (ℕ → List InterpolationBatch) := do
  let localLookup := makeBdryElLookupTable (input.localVbcGroups.getD g [])
  let sel := (List.range iLocalGrps.length).filter (fun k => iLocalGrps.getD k 0 == g)
  let base := input.localBaseElementNrs.getD g 0
  let matchedLocal := sel.map (fun k =>
    localLookup (ipag.neighbors.getD k 0 - base) (ipag.neighborFaces.getD k 0))
  if matchedLocal.any (fun x => decide (x < 0)) then
    throw BuildError.negativeIndex
  else
    let matchedRemote := sel.map (fun k =>
      mkRemoteVolToBdry rgi (ipag.elements.getD k 0) (ipag.elementFaces.getD k 0))
    if matchedRemote.any (fun x => decide (x < 0)) then
      throw BuildError.negativeIndex
    else do
      let bs ← (cfb g ipag.igroup matchedLocal matchedRemote).mapError BuildError.matchFailed
      pure (Function.update parts g (parts g ++ bs))

/-- The nested loops of `make_partition_connection` (lines 579-630). -/
def buildPartitionGroups
    (cfb : ℕ → ℕ → List ℤ → List ℤ → Except MatchError (List InterpolationBatch))
    (findGroupIndices : List ℤ → List ℕ) (input : PartitionInput) :
    Except BuildError (ℕ → List InterpolationBatch) :=
  if input.localNVolGroups = input.localNBdryGroups then
    input.remoteGroupInfos.foldlM (fun parts rgi =>
      rgi.interPartAdjGroups.foldlM (fun parts ipag =>
        let iLocalGrps := findGroupIndices ipag.neighbors
        (uniqueSorted iLocalGrps).foldlM
          (fun parts g => processLocalGrp cfb input rgi ipag iLocalGrps g parts)
          parts)
        parts)
      (fun _ => [])
  else
    .error .invalidRestriction

/-- `make_partition_connection`: run the loops and assemble a
`DirectDiscretizationConnection` with `is_surjective=True` transporting
from the remote boundary to the local boundary. -/
def makePartitionConnection
    (cfb : ℕ → ℕ → List ℤ → List ℤ → Except MatchError (List InterpolationBatch))
    (findGroupIndices : List ℤ → List ℕ) (input : PartitionInput) :
    Except BuildError BuiltConnection :=
  (buildPartitionGroups cfb findGroupIndices input).map (fun parts =>
    { groups := (List.range input.localNVolGroups).map parts
      isSurjective := true
      toDiscrNElements := input.localBdryGroupNElements })

/-- The surjectivity property the spec claims of a built connection:
every element of every target group appears among the
`to_element_indices` of that group's batches.  (Modelled from the spec's
surjectivity invariant; the source never checks it.) -/
def coversTarget (conn : BuiltConnection) : Prop :=
  ∀ g < conn.toDiscrNElements.length, ∀ e < conn.toDiscrNElements.getD g 0,
    ∃ b ∈ conn.groups.getD g [], (e : ℤ) ∈ b.toElementIndices

instance (conn : BuiltConnection) : Decidable (coversTarget conn) := by
  unfold coversTarget; infer_instance


/-- A concrete valid restriction input with one volume group (one element,
one face), a one-element boundary group, and no interior adjacency. -/
def exInput : OppositeFaceInput :=
  { volGroupNFaces := [1]
    bdryGroupNElements := [1]
    vbcGroups := [[{ fromGroupIndex := 0, fromElementIndices := [0],
                     toElementIndices := [0], toElementFace := some 0 }]]
    adjGroups := [[]] }


/-! ## L2-projection inverse — `projection.py`

Source: `projection.py`, lines 47-130.  Element groups are modelled by the
two capabilities the projection code queries: `is_orthonormal_basis()` and
`isinstance(grp, InterpolatoryElementGroupBase)`. -/

/-- An element group as seen by `L2ProjectionInverseDiscretizationConnection`. -/
structure ProjGroup where
  isOrthonormalBasis : Bool
  isInterpolatory : Bool

/-- A discretization as seen by the projection code. -/
structure ProjDiscr where
  dim : ℕ
  groups : List ProjGroup

/-- A forward `DirectDiscretizationConnection` (the fields the projection
constructor reads). -/
structure FwdConn where
  fromDiscr : ProjDiscr
  toDiscr : ProjDiscr

/-- A connection handed to (or produced by) the inverse constructor:
either a direct connection or a chained connection over a list of links. -/
inductive ConnTree where
  | direct (c : FwdConn)
  | chained (cs : List ConnTree)

/-- Fatal conditions of `L2ProjectionInverseDiscretizationConnection`. -/
inductive ProjError where
  /-- `RuntimeError("cannot transport from face to element")` (line 78). -/
  | dimMismatch
  /-- `RuntimeError("to_discr must have an orthonormal basis")` (line 81). -/
  | notOrthonormal
  /-- `ValueError("element group must be interpolatory")` (line 119). -/
  | notInterpolatory

/-- What the constructor returns. -/
inductive ProjResult where
  /-- The input object itself, unchanged (`return connections` for an
  empty chain, line 66). -/
  | orig (c : ConnTree)
  /-- A constructed `L2ProjectionInverseDiscretizationConnection`: stores
  `conn` and, via `super().__init__`, `from_discr = conn.to_discr`,
  `to_discr = conn.from_discr` and the `is_surjective` flag
  (lines 83-87). -/
  | l2inv (conn : FwdConn) (fromDiscr toDiscr : ProjDiscr) (isSurjective : Bool)
  /-- `ChainedDiscretizationConnection(conns)` (line 74). -/
  | chainedOf (cs : List ProjResult)

mutual

/-- `L2ProjectionInverseDiscretizationConnection.__new__`/`__init__`
(lines 61-87): a direct connection is validated (equal dimensions, every
target group orthonormal) and wrapped with swapped discretizations; an
empty chain is returned unchanged; a non-empty chain (and, in the `else`
branch, a plain list) is inverted link by link in reversed order and
re-chained. -/
def l2ProjectionInverse (isSurj : Bool) : ConnTree → Except ProjError ProjResult
  | .direct c =>
      if c.fromDiscr.dim ≠ c.toDiscr.dim then
        .error .dimMismatch
      else if ¬ c.toDiscr.groups.all (fun g => g.isOrthonormalBasis) then
        .error .notOrthonormal
      else
        .ok (.l2inv c c.toDiscr c.fromDiscr isSurj)
  | .chained [] => .ok (.orig (.chained []))
  | .chained (c :: cs) =>
      (l2InvertReversed isSurj (c :: cs)).map ProjResult.chainedOf

/-- `for cnx in reversed(connections): conns.append(cls(cnx, ...))`
(lines 70-73): invert the links starting from the last; the result list
is the reversed-order list of inverses, and the first failure raised is
that of the last link, as in the source's iteration order. -/
def l2InvertReversed (isSurj : Bool) : List ConnTree → Except ProjError (List ProjResult)
  | [] => .ok []
  | c :: cs => do
      let rs ← l2InvertReversed isSurj cs
      let r ← l2ProjectionInverse isSurj c
      pure (rs ++ [r])

end

/-- The group-type validation inside `_batch_weights` (lines 117-119):
iterating `self.to_discr.groups` (the *forward* connection's
`from_discr`), raise `ValueError("element group must be interpolatory")`
at the first non-interpolatory group.  The quadrature-weight numerics of
`_batch_weights` (modepy differentiation matrices, the geometric-algebra
wedge determinant) are external collaborators; only this check is the
projection module's own control flow, and it runs at application time,
not at construction. -/
def batchWeightsGroupCheck : List ProjGroup → Except ProjError Unit
  | [] => .ok ()
  | g :: gs =>
      if g.isInterpolatory then batchWeightsGroupCheck gs
      else .error .notInterpolatory



/-- Concrete unit-node data for the partitioner analysis: one dimension,
three elements, one node, values `0`, `9/10`, `-9/10`. -/
def uC5 : Fin 1 → Fin 3 → Fin 1 → ℚ := fun _ e _ =>
  if e = 0 then 0 else if e = 1 then 9/10 else -9/10

/-- Concrete unit-node data: one dimension, one element, three nodes. -/
def uC3 : Fin 1 → Fin 1 → Fin 3 → ℚ := fun _ _ _ => 0



/-- A forward connection with equal dimensions and an orthonormal target
basis whose `from_discr` holds a non-interpolatory group. -/
def cC7 : FwdConn :=
  { fromDiscr := { dim := 1, groups := [{ isOrthonormalBasis := true, isInterpolatory := false }] }
    toDiscr := { dim := 1, groups := [{ isOrthonormalBasis := true, isInterpolatory := true }] } }

/-- A trivially valid forward connection (dimension 0, no groups). -/
def cC8 : FwdConn :=
  { fromDiscr := { dim := 0, groups := [] }
    toDiscr := { dim := 0, groups := [] } }


/-! # Theorems -/

theorem le_listMax {l : List ℚ} {x : ℚ} (hx : x ∈ l) : x ≤ listMax l := by
  induction l with
  | nil => cases hx
  | cons a l ih =>
      rcases List.mem_cons.mp hx with rfl | hx
      · exact le_max_left _ _
      · exact le_trans (ih hx) (le_max_right _ _)

theorem listMax_lt_iff {l : List ℚ} {x : ℚ} :
    listMax l < x ↔ 0 < x ∧ ∀ a ∈ l, a < x := by
  induction l with
  | nil => simp [listMax]
  | cons a l ih =>
      simp only [listMax, List.foldr_cons, max_lt_iff, List.mem_cons]
      constructor
      · rintro ⟨ha, hl⟩
        rcases ih.mp hl with ⟨hx, hall⟩
        exact ⟨hx, by rintro b (rfl | hb); exacts [ha, hall b hb]⟩
      · rintro ⟨hx, hall⟩
        exact ⟨hall a (Or.inl rfl), ih.mpr ⟨hx, fun b hb => hall b (Or.inr hb)⟩⟩

theorem listMax_le_iff {l : List ℚ} {x : ℚ} :
    listMax l ≤ x ↔ 0 ≤ x ∧ ∀ a ∈ l, a ≤ x := by
  induction l with
  | nil => simp [listMax]
  | cons a l ih =>
      simp only [listMax, List.foldr_cons, max_le_iff, List.mem_cons]
      constructor
      · rintro ⟨ha, hl⟩
        rcases ih.mp hl with ⟨hx, hall⟩
        exact ⟨hx, by rintro b (rfl | hb); exacts [ha, hall b hb]⟩
      · rintro ⟨hx, hall⟩
        exact ⟨hall a (Or.inl rfl), ih.mpr ⟨hx, fun b hb => hall b (Or.inr hb)⟩⟩

theorem listMax_nonneg (l : List ℚ) : 0 ≤ listMax l := by
  induction l with
  | nil => simp [listMax]
  | cons a l ih => exact le_trans ih (le_max_right _ _)

/-- The internal consistency re-check of the permutation tier (source lines
128-133: recompute the distances on the matched pairs and `assert` they are
all `< tol`).  It can never fire: whenever the tier succeeds, each matched
pair is close by construction. -/
theorem matching_recheck_passes {a n s t : ℕ} (tol : ℚ)
    (tgt : Fin a → Fin n → Fin t → ℚ) (src : Fin a → Fin n → Fin s → ℚ)
    (h : ∀ e i, numClose tol tgt src e i = 1) (e : Fin n) (i : Fin t) :
    isClose tol tgt src e i
      ((Finset.univ.filter (fun j => isClose tol tgt src e i j)).min'
        (Finset.card_pos.mp (by have hc := h e i; unfold numClose at hc; omega))) := by
  have hmem := Finset.min'_mem
    (Finset.univ.filter (fun j => isClose tol tgt src e i j))
    (Finset.card_pos.mp (by have hc := h e i; unfold numClose at hc; omega))
  exact (Finset.mem_filter.mp hmem).2

theorem numClose_eq_one_iff {a n s t : ℕ} (tol : ℚ)
    (tgt : Fin a → Fin n → Fin t → ℚ) (src : Fin a → Fin n → Fin s → ℚ)
    (e : Fin n) (i : Fin t) :
    numClose tol tgt src e i = 1 ↔ ∃! j, isClose tol tgt src e i j := by
  unfold numClose
  rw [Finset.card_eq_one]
  constructor
  · rintro ⟨j0, hj0⟩
    refine ⟨j0, ?_, ?_⟩
    · have : j0 ∈ Finset.univ.filter (fun j => isClose tol tgt src e i j) := by
        rw [hj0]; exact Finset.mem_singleton_self j0
      exact (Finset.mem_filter.mp this).2
    · intro j hj
      have : j ∈ Finset.univ.filter (fun j => isClose tol tgt src e i j) :=
        Finset.mem_filter.mpr ⟨Finset.mem_univ j, hj⟩
      rw [hj0] at this
      exact Finset.mem_singleton.mp this
  · rintro ⟨j0, hj0, huniq⟩
    refine ⟨j0, ?_⟩
    ext j
    simp only [Finset.mem_filter, Finset.mem_univ, true_and, Finset.mem_singleton]
    exact ⟨fun hj => huniq j hj, fun hj => hj ▸ hj0⟩

/-- **C9**: when the target boundary discretization has dimension 0,
`_make_cross_face_batches` performs no geometric matching at all: for any
target/source node data, machine epsilon and Gauss-Newton solver it
returns exactly one `InterpolationBatch` pairing the given source and
target element indices in their given order, with `result_unit_nodes`
equal to the source group's unit nodes and `to_element_face = None`. -/
theorem makeCrossFaceBatches_dim_zero {a n s t d : ℕ} (tgtDim : ℕ) (eps : ℚ)
    (iSrcGrp : ℕ) (srcGrpUnitNodes : Fin d → Fin s → ℚ)
    (tgt : Fin a → Fin n → Fin t → ℚ) (src : Fin a → Fin n → Fin s → ℚ)
    (tgtIdx srcIdx : Fin n → ℤ)
    (gn : ℚ → Except MatchError (Fin d → Fin n → Fin t → ℚ))
    (h : tgtDim = 0) :
    makeCrossFaceBatches tgtDim eps iSrcGrp srcGrpUnitNodes tgt src tgtIdx srcIdx gn =
      .ok [{ fromGroupIndex := iSrcGrp
             fromElementIndices := (List.finRange n).map srcIdx
             toElementIndices := (List.finRange n).map tgtIdx
             resultUnitNodes := ⟨d, s, srcGrpUnitNodes⟩
             toElementFace := none }] := by
  subst h
  simp [makeCrossFaceBatches]

/-- Witness for C9: a concrete dimension-0 call. -/
theorem makeCrossFaceBatches_dim_zero_witness :
    makeCrossFaceBatches (a := 1) (n := 1) (s := 1) (t := 1) (d := 1) 0 1 7
      (fun _ _ => 0) (fun _ _ _ => 0) (fun _ _ _ => 1) (fun _ => 2) (fun _ => 3)
      (fun _ => .error .partitionFuelOut) =
      .ok [{ fromGroupIndex := 7
             fromElementIndices := (List.finRange 1).map (fun _ => 3)
             toElementIndices := (List.finRange 1).map (fun _ => 2)
             resultUnitNodes := ⟨1, 1, fun _ _ => 0⟩
             toElementFace := none }] :=
  makeCrossFaceBatches_dim_zero 0 1 7 (fun _ _ => 0) (fun _ _ _ => 0)
    (fun _ _ _ => 1) (fun _ => 2) (fun _ => 3) (fun _ => .error .partitionFuelOut) rfl

/-- **C1**: the exact-permutation tier succeeds iff, within each element,
every target node has exactly one source node at Euclidean distance less
than `tol` (`numClose … = 1`, which the first conjunct identifies with
unique existence of a close source node); on success it returns the
source group's reference unit nodes reindexed by the matched permutation;
on failure (`None`), `_make_cross_face_batches` (for a target dimension
`≠ 0`, where `tol = 1e4 * eps`) invokes the Gauss-Newton tier instead. -/
theorem matching_tier_spec {a n s t d : ℕ} (tol eps : ℚ)
    (tgt : Fin a → Fin n → Fin t → ℚ) (src : Fin a → Fin n → Fin s → ℚ)
    (un : Fin d → Fin s → ℚ) :
    (∀ e i, numClose tol tgt src e i = 1 ↔ ∃! j, isClose tol tgt src e i j)
    ∧ ((∃ r, findSrcUnitNodesByMatching tol tgt src un = some r) ↔
        ∀ e i, numClose tol tgt src e i = 1)
    ∧ (∀ r, findSrcUnitNodesByMatching tol tgt src un = some r →
        ∀ e i, ∃ j, isClose tol tgt src e i j ∧
          (∀ j', isClose tol tgt src e i j' → j' = j) ∧
          ∀ c, r c e i = un c j)
    ∧ (∀ (tgtDim iSrcGrp : ℕ) (tgtIdx srcIdx : Fin n → ℤ)
          (gn : ℚ → Except MatchError (Fin d → Fin n → Fin t → ℚ)),
        tgtDim ≠ 0 →
        findSrcUnitNodesByMatching (10000 * eps) tgt src un = none →
        makeCrossFaceBatches tgtDim eps iSrcGrp un tgt src tgtIdx srcIdx gn =
          gn (10000 * eps) >>= processUnitNodes (10000 * eps) iSrcGrp tgtIdx srcIdx) := by
  refine ⟨numClose_eq_one_iff tol tgt src, ?_, ?_, ?_⟩
  · constructor
    · rintro ⟨r, hr⟩
      by_contra hno
      rw [findSrcUnitNodesByMatching, dif_neg hno] at hr
      exact Option.noConfusion hr
    · intro h
      rw [findSrcUnitNodesByMatching, dif_pos h]
      exact ⟨_, rfl⟩
  · intro r hr e i
    by_cases h : ∀ e i, numClose tol tgt src e i = 1
    · rw [findSrcUnitNodesByMatching, dif_pos h] at hr
      have hcard : (Finset.univ.filter (fun j => isClose tol tgt src e i j)).card = 1 :=
        h e i
      rcases Finset.card_eq_one.mp hcard with ⟨j0, hj0⟩
      refine ⟨j0, ?_, ?_, ?_⟩
      · have : j0 ∈ Finset.univ.filter (fun j => isClose tol tgt src e i j) := by
          rw [hj0]; exact Finset.mem_singleton_self j0
        exact (Finset.mem_filter.mp this).2
      · intro j' hj'
        have : j' ∈ Finset.univ.filter (fun j => isClose tol tgt src e i j) :=
          Finset.mem_filter.mpr ⟨Finset.mem_univ j', hj'⟩
        rw [hj0] at this
        exact Finset.mem_singleton.mp this
      · intro c
        have hr' := Option.some.inj hr
        rw [← hr']
        have hmem := Finset.min'_mem
          (Finset.univ.filter (fun j => isClose tol tgt src e i j))
          (Finset.card_pos.mp (by have hc := h e i; unfold numClose at hc; omega))
        rcases Finset.eq_singleton_iff_unique_mem.mp hj0 with ⟨-, huni⟩
        exact congrArg (un c) (huni _ hmem)
    · rw [findSrcUnitNodesByMatching, dif_neg h] at hr
      exact Option.noConfusion hr
  · intro tgtDim iSrcGrp tgtIdx srcIdx gn hdim hnone
    rw [makeCrossFaceBatches, if_neg hdim]
    simp only [hnone]

/-- Witness for C1: a concrete matching call where target and source node
clouds coincide (so the tier succeeds) and a concrete call where they are
`tol`-separated (so `_make_cross_face_batches` falls to the Gauss-Newton
tier). -/
theorem matching_tier_spec_witness :
    (∃ r, findSrcUnitNodesByMatching (a := 1) (n := 1) (s := 1) (t := 1) (d := 1)
      1 (fun _ _ _ => 0) (fun _ _ _ => 0) (fun _ _ => 5) = some r)
    ∧ makeCrossFaceBatches (a := 1) (n := 1) (s := 1) (t := 1) (d := 1) 1 1 4
        (fun _ _ => 5) (fun _ _ _ => 0) (fun _ _ _ => 12345678) (fun _ => 2) (fun _ => 3)
        (fun _ => .error .partitionFuelOut) =
        ((fun _ => .error .partitionFuelOut : ℚ → Except MatchError (Fin 1 → Fin 1 → Fin 1 → ℚ)) 10000) >>=
          processUnitNodes 10000 4 (fun _ => 2) (fun _ => 3) := by
  have h1 := (matching_tier_spec (a := 1) (n := 1) (s := 1) (t := 1) (d := 1)
    1 1 (fun _ _ _ => 0) (fun _ _ _ => 0) (fun _ _ => 5)).2.1
  have h2 := (matching_tier_spec (a := 1) (n := 1) (s := 1) (t := 1) (d := 1)
    1 1 (fun _ _ _ => 0) (fun _ _ _ => 12345678) (fun _ _ => 5)).2.2.2
  constructor
  · refine h1.mpr ?_
    intro e i
    rw [numClose, Finset.filter_true_of_mem]
    · simp
    · intro j _
      show distSq _ _ e i j < 1 ^ 2
      rw [distSq]
      norm_num
  · have hcfb := h2 1 4 (fun _ => 2) (fun _ => 3)
      (fun _ => .error .partitionFuelOut) one_ne_zero ?_
    · have h10 : (10000 : ℚ) * 1 = 10000 := by norm_num
      rw [h10] at hcfb
      exact hcfb
    · rw [findSrcUnitNodesByMatching, dif_neg]
      intro hall
      have := hall 0 0
      rw [numClose, Finset.filter_false_of_mem, Finset.card_empty] at this
      · exact Nat.noConfusion this
      · intro j _
        show ¬ distSq _ _ 0 0 j < (10000 * 1) ^ 2
        rw [distSq]
        norm_num

/-! ### Batch partitioner lemmas (claims C3 and C5) -/

theorem abs_sub_mem_unitNodeDist_list {d n t : ℕ} (u : Fin d → Fin n → Fin t → ℚ)
    (e f : Fin n) (c : Fin d) (i : Fin t) :
    |u c e i - u c f i| ∈ ((List.finRange d).map (fun c =>
      (List.finRange t).map (fun i => |u c e i - u c f i|))).flatten := by
  rw [List.mem_flatten]
  exact ⟨_, List.mem_map_of_mem _ (List.mem_finRange c),
    List.mem_map_of_mem _ (List.mem_finRange i)⟩

theorem unitNodeDist_self {d n t : ℕ} (u : Fin d → Fin n → Fin t → ℚ) (e : Fin n) :
    unitNodeDist u e e = 0 := by
  refine le_antisymm ?_ (listMax_nonneg _)
  rw [unitNodeDist, listMax_le_iff]
  refine ⟨le_refl 0, ?_⟩
  intro x hx
  rw [List.mem_flatten] at hx
  rcases hx with ⟨l, hl, hx⟩
  rw [List.mem_map] at hl
  rcases hl with ⟨c, -, rfl⟩
  rw [List.mem_map] at hx
  rcases hx with ⟨i, -, rfl⟩
  simp

theorem unitNodeDist_comm {d n t : ℕ} (u : Fin d → Fin n → Fin t → ℚ) (e f : Fin n) :
    unitNodeDist u e f = unitNodeDist u f e := by
  rw [unitNodeDist, unitNodeDist]
  congr 1
  congr 1
  apply List.map_congr_left
  intro c _
  apply List.map_congr_left
  intro i _
  rw [abs_sub_comm]

theorem unitNodeDist_triangle {d n t : ℕ} (u : Fin d → Fin n → Fin t → ℚ)
    (e f g : Fin n) : unitNodeDist u e g ≤ unitNodeDist u e f + unitNodeDist u f g := by
  rw [unitNodeDist, listMax_le_iff]
  constructor
  · exact add_nonneg (listMax_nonneg _) (listMax_nonneg _)
  · intro x hx
    rw [List.mem_flatten] at hx
    rcases hx with ⟨l, hl, hx⟩
    rw [List.mem_map] at hl
    rcases hl with ⟨c, -, rfl⟩
    rw [List.mem_map] at hx
    rcases hx with ⟨i, -, rfl⟩
    calc |u c e i - u c g i| ≤ |u c e i - u c f i| + |u c f i - u c g i| :=
          abs_sub_le _ _ _
      _ ≤ unitNodeDist u e f + unitNodeDist u f g :=
          add_le_add (le_listMax (abs_sub_mem_unitNodeDist_list u e f c i))
            (le_listMax (abs_sub_mem_unitNodeDist_list u f g c i))

theorem batchesAux_terminates {d n t : ℕ} (u : Fin d → Fin n → Fin t → ℚ)
    {tol : ℚ} (htol : 0 < tol) :
    ∀ (fuel : ℕ) (todo : List (Fin n)), todo.length ≤ fuel →
      ∃ gs, findSrcUnitNodesBatchesAux u tol fuel todo = some gs := by
  intro fuel
  induction fuel with
  | zero =>
      intro todo h
      rcases todo with - | ⟨x, xs⟩
      · exact ⟨[], rfl⟩
      · simp at h
  | succ fuel ih =>
      intro todo h
      rcases todo with - | ⟨tmpl, rest⟩
      · exact ⟨[], rfl⟩
      · have hp : (!decide (unitNodeDist u tmpl tmpl < tol)) = false := by
          simp [unitNodeDist_self, htol]
        have hrem : ((tmpl :: rest).filter
            (fun e => !decide (unitNodeDist u e tmpl < tol))).length ≤ fuel := by
          rw [List.filter_cons_of_neg (by simpa using hp)]
          calc (rest.filter _).length ≤ rest.length := List.length_filter_le _ _
            _ ≤ fuel := by simpa using h
        rcases ih _ hrem with ⟨gs, hgs⟩
        refine ⟨(tmpl, (tmpl :: rest).filter
          (fun e => decide (unitNodeDist u e tmpl < tol))) :: gs, ?_⟩
        rw [findSrcUnitNodesBatchesAux]
        rw [hgs]
        rfl

theorem batchesAux_perm {d n t : ℕ} (u : Fin d → Fin n → Fin t → ℚ) (tol : ℚ) :
    ∀ (fuel : ℕ) (todo : List (Fin n)) (gs : List (Fin n × List (Fin n))),
      findSrcUnitNodesBatchesAux u tol fuel todo = some gs →
      ((gs.map Prod.snd).flatten).Perm todo := by
  intro fuel
  induction fuel with
  | zero =>
      intro todo gs h
      rcases todo with - | ⟨x, xs⟩
      · cases h; simp
      · cases h
  | succ fuel ih =>
      intro todo gs h
      rcases todo with - | ⟨tmpl, rest⟩
      · cases h; simp
      · rw [findSrcUnitNodesBatchesAux] at h
        cases haux : findSrcUnitNodesBatchesAux u tol fuel
            ((tmpl :: rest).filter (fun e => !decide (unitNodeDist u e tmpl < tol))) with
        | none => rw [haux] at h; cases h
        | some gs' =>
            rw [haux] at h
            cases h
            have hperm := ih _ _ haux
            have hflat : ((((tmpl, (tmpl :: rest).filter
                  (fun e => decide (unitNodeDist u e tmpl < tol))) :: gs').map
                    Prod.snd).flatten)
                = (tmpl :: rest).filter (fun e => decide (unitNodeDist u e tmpl < tol))
                    ++ ((gs'.map Prod.snd).flatten) := by simp
            rw [hflat]
            exact (List.Perm.append_left _ hperm).trans (List.filter_append_perm _ _)

theorem batchesAux_close {d n t : ℕ} (u : Fin d → Fin n → Fin t → ℚ)
    {tol : ℚ} (htol : 0 < tol) :
    ∀ (fuel : ℕ) (todo : List (Fin n)) (gs : List (Fin n × List (Fin n))),
      findSrcUnitNodesBatchesAux u tol fuel todo = some gs →
      ∀ g ∈ gs, g.1 ∈ g.2 ∧ ∀ e ∈ g.2, unitNodeDist u e g.1 < tol := by
  intro fuel
  induction fuel with
  | zero =>
      intro todo gs h
      rcases todo with - | ⟨x, xs⟩
      · cases h; simp
      · cases h
  | succ fuel ih =>
      intro todo gs h
      rcases todo with - | ⟨tmpl, rest⟩
      · cases h; simp
      · rw [findSrcUnitNodesBatchesAux] at h
        cases haux : findSrcUnitNodesBatchesAux u tol fuel
            ((tmpl :: rest).filter (fun e => !decide (unitNodeDist u e tmpl < tol))) with
        | none => rw [haux] at h; cases h
        | some gs' =>
            rw [haux] at h
            cases h
            intro g hg
            rcases List.mem_cons.mp hg with rfl | hg
            · constructor
              · apply List.mem_filter.mpr
                exact ⟨List.mem_cons_self _ _, by simp [unitNodeDist_self, htol]⟩
              · intro e he
                have := (List.mem_filter.mp he).2
                simpa using this
            · exact ih _ _ haux g hg

/-- **C5 (amended)**: for `tol > 0` the greedy batch partitioner terminates
and the produced batches partition the input element set (the concatenation
of the clusters is a permutation of the element list, so each element is
assigned to exactly one batch); every element of a batch has
`result_unit_nodes` within `tol` (max-norm) of the batch's *template* (the
first undone element, which belongs to the batch), and hence every pair of
elements in one batch differs by less than `2 * tol` — not `tol`, as the
counterexample shows. -/
theorem batch_partitioner_spec {d n t : ℕ} (u : Fin d → Fin n → Fin t → ℚ)
    {tol : ℚ} (iSrcGrp : ℕ) (tgtIdx srcIdx : Fin n → ℤ) (htol : 0 < tol) :
    ∃ gs, findSrcUnitNodesBatchesAux u tol n (List.finRange n) = some gs ∧
      findSrcUnitNodesBatches u tol iSrcGrp tgtIdx srcIdx =
        some (gs.map (batchOfGroup u iSrcGrp tgtIdx srcIdx)) ∧
      ((gs.map Prod.snd).flatten).Perm (List.finRange n) ∧
      (∀ e : Fin n, ((gs.map Prod.snd).flatten).count e = 1) ∧
      (∀ g ∈ gs, g.1 ∈ g.2 ∧ ∀ e ∈ g.2, unitNodeDist u e g.1 < tol) ∧
      (∀ g ∈ gs, ∀ e ∈ g.2, ∀ f ∈ g.2, unitNodeDist u e f < 2 * tol) := by
  obtain ⟨gs, hgs⟩ := batchesAux_terminates u htol n (List.finRange n)
    (le_of_eq (List.length_finRange n))
  have hperm := batchesAux_perm u tol n (List.finRange n) gs hgs
  have hclose := batchesAux_close u htol n (List.finRange n) gs hgs
  refine ⟨gs, hgs, ?_, hperm, ?_, hclose, ?_⟩
  · rw [findSrcUnitNodesBatches, hgs]
    rfl
  · intro e
    rw [hperm.count_eq]
    exact List.count_eq_one_of_mem (List.nodup_finRange n) (List.mem_finRange e)
  · intro g hg e he f hf
    obtain ⟨-, hcl⟩ := hclose g hg
    have h1 := hcl e he
    have h2 := hcl f hf
    have h3 := unitNodeDist_triangle u e g.1 f
    rw [unitNodeDist_comm u g.1 f] at h3
    linarith

/-- Witness for the amended C5, at a concrete 3-element instance. -/
theorem batch_partitioner_spec_witness :
    (0 : ℚ) < 1 ∧
    (∃ gs, findSrcUnitNodesBatchesAux uC5 1 3 (List.finRange 3) = some gs ∧
      findSrcUnitNodesBatches uC5 1 4 (fun _ => 0) (fun _ => 0) =
        some (gs.map (batchOfGroup uC5 4 (fun _ => 0) (fun _ => 0))) ∧
      ((gs.map Prod.snd).flatten).Perm (List.finRange 3) ∧
      (∀ e : Fin 3, ((gs.map Prod.snd).flatten).count e = 1) ∧
      (∀ g ∈ gs, g.1 ∈ g.2 ∧ ∀ e ∈ g.2, unitNodeDist uC5 e g.1 < 1) ∧
      (∀ g ∈ gs, ∀ e ∈ g.2, ∀ f ∈ g.2, unitNodeDist uC5 e f < 2 * 1)) :=
  ⟨by norm_num, batch_partitioner_spec uC5 4 (fun _ => 0) (fun _ => 0) (by norm_num)⟩

/-- Counterexample to C5 as stated: on the 1D single-node unit-node data
`(0, 9/10, -9/10)` with `tol = 1`, the partitioner puts all three elements
in one batch (all within `tol` of the template `0`), yet elements `1` and
`2` have `result_unit_nodes` differing by `9/5 ≥ tol` in max-norm — the
batch-pairwise deviation bound claimed is violated. -/
theorem batch_partitioner_counterexample :
    findSrcUnitNodesBatchesAux uC5 1 3 (List.finRange 3) = some [(0, [0, 1, 2])] ∧
    (1 : Fin 3) ∈ [(0 : Fin 3), 1, 2] ∧ (2 : Fin 3) ∈ [(0 : Fin 3), 1, 2] ∧
    ¬ unitNodeDist uC5 1 2 < 1 := by
  have hfr : (List.finRange 1) = [0] := rfl
  have h00 : decide (unitNodeDist uC5 0 0 < 1) = true := by
    apply decide_eq_true
    norm_num [unitNodeDist, listMax, hfr, uC5, abs, Fin.ext_iff]
  have h10 : decide (unitNodeDist uC5 1 0 < 1) = true := by
    apply decide_eq_true
    norm_num [unitNodeDist, listMax, hfr, uC5, abs, Fin.ext_iff]
  have h20 : decide (unitNodeDist uC5 2 0 < 1) = true := by
    apply decide_eq_true
    norm_num [unitNodeDist, listMax, hfr, uC5, abs, Fin.ext_iff]
  refine ⟨?_, by decide, by decide, ?_⟩
  · have hfin : (List.finRange 3) = [0, 1, 2] := by decide
    rw [hfin]
    show findSrcUnitNodesBatchesAux uC5 1 (2 + 1) ([0, 1, 2]) = _
    rw [findSrcUnitNodesBatchesAux]
    simp only [List.filter, h00, h10, h20, Bool.not_true]
    rw [findSrcUnitNodesBatchesAux]
    rfl
  · norm_num [unitNodeDist, listMax, hfr, uC5, abs, Fin.ext_iff]

/-- **C3 (amended)**: every `InterpolationBatch` produced by
`_find_src_unit_nodes_batches` satisfies
`len(from_element_indices) == len(to_element_indices)`, and its
`result_unit_nodes` is the 2D template array of shape
`(dim, n_target_nodes)` shared by the whole batch — so
`result_unit_nodes.shape[1]` is the target node count, not the batch's
element count as claimed. -/
theorem interpolation_batch_shape {d n t : ℕ} (u : Fin d → Fin n → Fin t → ℚ)
    (tol : ℚ) (iSrcGrp : ℕ) (tgtIdx srcIdx : Fin n → ℤ)
    (bs : List InterpolationBatch)
    (h : findSrcUnitNodesBatches u tol iSrcGrp tgtIdx srcIdx = some bs) :
    ∀ b ∈ bs, b.fromElementIndices.length = b.toElementIndices.length ∧
      b.resultUnitNodes.rows = d ∧ b.resultUnitNodes.cols = t := by
  rw [findSrcUnitNodesBatches] at h
  cases haux : findSrcUnitNodesBatchesAux u tol n (List.finRange n) with
  | none => rw [haux] at h; cases h
  | some gs =>
      rw [haux] at h
      simp only [Option.map_some', Option.some.injEq] at h
      intro b hb
      rw [← h, List.mem_map] at hb
      rcases hb with ⟨g, -, rfl⟩
      simp [batchOfGroup]

/-- Witness for the amended C3, at a concrete 1-element, 3-node instance. -/
theorem interpolation_batch_shape_witness :
    (batchOfGroup uC3 5 (fun _ => 0) (fun _ => 0)
        ((0 : Fin 1), [(0 : Fin 1)])).fromElementIndices.length =
      (batchOfGroup uC3 5 (fun _ => 0) (fun _ => 0)
        ((0 : Fin 1), [(0 : Fin 1)])).toElementIndices.length ∧
    (batchOfGroup uC3 5 (fun _ => 0) (fun _ => 0)
      ((0 : Fin 1), [(0 : Fin 1)])).resultUnitNodes.rows = 1 ∧
    (batchOfGroup uC3 5 (fun _ => 0) (fun _ => 0)
      ((0 : Fin 1), [(0 : Fin 1)])).resultUnitNodes.cols = 3 :=
  interpolation_batch_shape uC3 1 5 (fun _ => 0) (fun _ => 0)
    (List.map (batchOfGroup uC3 5 (fun _ => 0) (fun _ => 0))
      [((0 : Fin 1), [(0 : Fin 1)])])
    (by
      have h00 : decide (unitNodeDist uC3 0 0 < 1) = true :=
        decide_eq_true (by rw [unitNodeDist_self]; norm_num)
      rw [findSrcUnitNodesBatches]
      have hfin : (List.finRange 1) = [0] := rfl
      rw [hfin]
      show Option.map _ (findSrcUnitNodesBatchesAux uC3 1 (0 + 1) [0]) = _
      rw [findSrcUnitNodesBatchesAux]
      simp only [List.filter, h00, Bool.not_true]
      rw [findSrcUnitNodesBatchesAux]
      rfl)
    (batchOfGroup uC3 5 (fun _ => 0) (fun _ => 0) ((0 : Fin 1), [(0 : Fin 1)]))
    (List.mem_map_of_mem _ (List.mem_singleton_self _))

theorem interpolation_batch_shape_counterexample :
    findSrcUnitNodesBatches uC3 1 5 (fun _ => 0) (fun _ => 0) =
      some (List.map (batchOfGroup uC3 5 (fun _ => 0) (fun _ => 0))
        [((0 : Fin 1), [(0 : Fin 1)])]) ∧
    (batchOfGroup uC3 5 (fun _ => 0) (fun _ => 0)
      ((0 : Fin 1), [(0 : Fin 1)])).fromElementIndices.length = 1 ∧
    (batchOfGroup uC3 5 (fun _ => 0) (fun _ => 0)
      ((0 : Fin 1), [(0 : Fin 1)])).toElementIndices.length = 1 ∧
    (batchOfGroup uC3 5 (fun _ => 0) (fun _ => 0)
      ((0 : Fin 1), [(0 : Fin 1)])).resultUnitNodes.cols = 3 ∧
    (batchOfGroup uC3 5 (fun _ => 0) (fun _ => 0)
        ((0 : Fin 1), [(0 : Fin 1)])).fromElementIndices.length ≠
      (batchOfGroup uC3 5 (fun _ => 0) (fun _ => 0)
        ((0 : Fin 1), [(0 : Fin 1)])).resultUnitNodes.cols := by
  have h00 : decide (unitNodeDist uC3 0 0 < 1) = true :=
    decide_eq_true (by rw [unitNodeDist_self]; norm_num)
  refine ⟨?_, rfl, rfl, rfl, by decide⟩
  rw [findSrcUnitNodesBatches]
  have hfin : (List.finRange 1) = [0] := rfl
  rw [hfin]
  show Option.map _ (findSrcUnitNodesBatchesAux uC3 1 (0 + 1) [0]) = _
  rw [findSrcUnitNodesBatchesAux]
  simp only [List.filter, h00, Bool.not_true]
  rw [findSrcUnitNodesBatchesAux]
  rfl

/-! ### Gauss-Newton exit characterization (claims C2 and C4) -/

theorem gaussNewtonIteration_unfold {a d n t : ℕ}
    (applyMapE : (Fin d → Fin n → Fin t → ℚ) → Except ℚ (Fin a → Fin n → Fin t → ℚ))
    (dfi : (Fin d → Fin n → Fin t → ℚ) → (Fin a → Fin n → Fin t → ℚ) →
      (Fin d → Fin n → Fin t → ℚ))
    (tgt : Fin a → Fin n → Fin t → ℚ) (tol : ℚ)
    (g : (Fin d → Fin n → Fin t → ℚ) → (Fin a → Fin n → Fin t → ℚ))
    (happ : ∀ w, applyMapE w = .ok (g w)) (j : ℕ) (u : Fin d → Fin n → Fin t → ℚ) :
    gaussNewtonIteration applyMapE dfi tgt tol j u =
      if gnResid g tgt u < tol then .ok (gnStep g dfi tgt u)
      else if j + 1 > 10 then .error (.gnDidNotConverge (gnResid g tgt u))
      else gaussNewtonIteration applyMapE dfi tgt tol (j + 1) (gnStep g dfi tgt u) := by
  rw [gaussNewtonIteration, happ u]
  show (if gnResid g tgt u < tol then
      Except.ok (gnStep g dfi tgt u)
    else if _h : j + 1 > 10 then
      Except.error (MatchError.gnDidNotConverge (gnResid g tgt u))
    else gaussNewtonIteration applyMapE dfi tgt tol (j + 1) (gnStep g dfi tgt u)) = _
  by_cases hres : gnResid g tgt u < tol
  · rw [if_pos hres, if_pos hres]
  · rw [if_neg hres, if_neg hres]
    by_cases hj : j + 1 > 10
    · rw [dif_pos hj, if_pos hj]
    · rw [dif_neg hj, if_neg hj]

theorem gaussNewtonIteration_spec {a d n t : ℕ}
    (applyMapE : (Fin d → Fin n → Fin t → ℚ) → Except ℚ (Fin a → Fin n → Fin t → ℚ))
    (dfi : (Fin d → Fin n → Fin t → ℚ) → (Fin a → Fin n → Fin t → ℚ) →
      (Fin d → Fin n → Fin t → ℚ))
    (tgt : Fin a → Fin n → Fin t → ℚ) (tol : ℚ)
    (g : (Fin d → Fin n → Fin t → ℚ) → (Fin a → Fin n → Fin t → ℚ))
    (happ : ∀ w, applyMapE w = .ok (g w)) :
    ∀ (m j : ℕ), j + m = 10 → ∀ u,
      ((∃ x, gaussNewtonIteration applyMapE dfi tgt tol j u = .ok x) ↔
        ∃ k ≤ m, gnResid g tgt ((gnStep g dfi tgt)^[k] u) < tol)
      ∧ (∀ r, gaussNewtonIteration applyMapE dfi tgt tol j u =
            .error (.gnDidNotConverge r) ↔
          (∀ k ≤ m, ¬ gnResid g tgt ((gnStep g dfi tgt)^[k] u) < tol) ∧
          r = gnResid g tgt ((gnStep g dfi tgt)^[m] u))
      ∧ (∀ e, gaussNewtonIteration applyMapE dfi tgt tol j u = .error e →
          ∃ r, e = .gnDidNotConverge r) := by
  intro m
  induction m with
  | zero =>
      intro j hj u
      rw [gaussNewtonIteration_unfold applyMapE dfi tgt tol g happ j u]
      by_cases hres : gnResid g tgt u < tol
      · rw [if_pos hres]
        refine ⟨⟨fun _ => ⟨0, le_refl 0, hres⟩, fun _ => ⟨_, rfl⟩⟩, ?_, ?_⟩
        · intro r
          constructor
          · intro h; cases h
          · rintro ⟨hall, -⟩
            exact absurd hres (hall 0 (le_refl 0))
        · intro e h; cases h
      · rw [if_neg hres, if_pos (by omega)]
        refine ⟨?_, ?_, ?_⟩
        · constructor
          · rintro ⟨x, hx⟩; cases hx
          · rintro ⟨k, hk, hlt⟩
            interval_cases k
            exact absurd hlt hres
        · intro r
          constructor
          · intro h
            cases h
            exact ⟨fun k hk => by interval_cases k; exact hres, rfl⟩
          · rintro ⟨-, rfl⟩
            rfl
        · intro e h
          cases h
          exact ⟨_, rfl⟩
  | succ m ih =>
      intro j hj u
      rw [gaussNewtonIteration_unfold applyMapE dfi tgt tol g happ j u]
      by_cases hres : gnResid g tgt u < tol
      · rw [if_pos hres]
        refine ⟨⟨fun _ => ⟨0, Nat.zero_le _, hres⟩, fun _ => ⟨_, rfl⟩⟩, ?_, ?_⟩
        · intro r
          constructor
          · intro h; cases h
          · rintro ⟨hall, -⟩
            exact absurd hres (hall 0 (Nat.zero_le _))
        · intro e h; cases h
      · rw [if_neg hres, if_neg (by omega)]
        have hstep := ih (j + 1) (by omega) ((gnStep g dfi tgt) u)
        have hiter : ∀ k, (gnStep g dfi tgt)^[k] ((gnStep g dfi tgt) u) =
            (gnStep g dfi tgt)^[k + 1] u := by
          intro k
          rw [Function.iterate_succ_apply]
        refine ⟨?_, ?_, hstep.2.2⟩
        · rw [hstep.1]
          constructor
          · rintro ⟨k, hk, hlt⟩
            rw [hiter k] at hlt
            exact ⟨k + 1, by omega, hlt⟩
          · rintro ⟨k, hk, hlt⟩
            match k with
            | 0 => exact absurd hlt hres
            | k' + 1 =>
                refine ⟨k', by omega, ?_⟩
                rw [hiter k']
                exact hlt
        · intro r
          rw [hstep.2.1 r]
          constructor
          · rintro ⟨hall, hr⟩
            refine ⟨?_, ?_⟩
            · intro k hk
              match k with
              | 0 => exact hres
              | k' + 1 =>
                  have hk' := hall k' (by omega)
                  rw [hiter k'] at hk'
                  exact hk'
            · rw [← hiter m]
              exact hr
          · rintro ⟨hall, hr⟩
            refine ⟨?_, ?_⟩
            · intro k hk
              have hk1 := hall (k + 1) (by omega)
              rw [← hiter k] at hk1
              exact hk1
            · rw [hiter m]
              exact hr

/-- **C2**: under a total map application (the partition-of-unity assertion
never firing — its failure exit is claim C4's concern), the Gauss-Newton
solve started at the broadcast initial guess terminates successfully exactly
when the maximum absolute residual over all elements and target nodes falls
below `tol` within the iteration cap; it signals non-convergence as a fatal
`RuntimeError` carrying the final residual magnitude exactly when the
residuals of all iterates `0..10` fail the test (`niter > 10` exceeded); and
no other exit from the iteration exists (every error it returns is a
`gnDidNotConverge`). -/
theorem gauss_newton_exit_spec {a d n t : ℕ}
    (applyMapE : (Fin d → Fin n → Fin t → ℚ) → Except ℚ (Fin a → Fin n → Fin t → ℚ))
    (dfi : (Fin d → Fin n → Fin t → ℚ) → (Fin a → Fin n → Fin t → ℚ) →
      (Fin d → Fin n → Fin t → ℚ))
    (tgt : Fin a → Fin n → Fin t → ℚ) (tol : ℚ) (initialGuess : Fin d → ℚ)
    (g : (Fin d → Fin n → Fin t → ℚ) → (Fin a → Fin n → Fin t → ℚ))
    (happ : ∀ w, applyMapE w = .ok (g w)) :
    ((∃ x, findSrcUnitNodesViaGaussNewton applyMapE dfi tgt tol initialGuess = .ok x) ↔
      ∃ k ≤ 10, gnResid g tgt
        ((gnStep g dfi tgt)^[k] (fun c _ _ => initialGuess c)) < tol)
    ∧ (∀ r, findSrcUnitNodesViaGaussNewton applyMapE dfi tgt tol initialGuess =
          .error (.gnDidNotConverge r) ↔
        (∀ k ≤ 10, ¬ gnResid g tgt
          ((gnStep g dfi tgt)^[k] (fun c _ _ => initialGuess c)) < tol) ∧
        r = gnResid g tgt ((gnStep g dfi tgt)^[10] (fun c _ _ => initialGuess c)))
    ∧ (∀ e, findSrcUnitNodesViaGaussNewton applyMapE dfi tgt tol initialGuess =
          .error e → ∃ r, e = .gnDidNotConverge r) :=
  gaussNewtonIteration_spec applyMapE dfi tgt tol g happ 10 0 rfl
    (fun c _ _ => initialGuess c)

/-- Witness for C2: a concrete solve (identity map application, full Newton
correction, target `0`, initial guess `5`) converging after one update. -/
theorem gauss_newton_exit_spec_witness :
    (∃ x, findSrcUnitNodesViaGaussNewton (a := 1) (d := 1) (n := 1) (t := 1)
        (fun w => .ok w) (fun _ r => r) (fun _ _ _ => 0) 1 (fun _ => 5) = .ok x) ↔
      ∃ k ≤ 10, gnResid (a := 1) (d := 1) (n := 1) (t := 1)
        (fun w => w) (fun _ _ _ => 0)
        ((gnStep (a := 1) (d := 1) (n := 1) (t := 1) (fun w => w)
          (fun _ r => r) (fun _ _ _ => 0))^[k]
            (fun c _ _ => (fun _ : Fin 1 => (5 : ℚ)) c)) < 1 :=
  (gauss_newton_exit_spec (fun w => .ok w) (fun _ r => r) (fun _ _ _ => 0) 1
    (fun _ => 5) (fun w => w) (fun _ => rfl)).1

/-- **C4**: during every Gauss-Newton iteration, `apply_map` checks the
partition of unity: it succeeds iff for every element and target node the
interpolation coefficients obtained from the inverse-transpose Vandermonde
solve sum to 1 within `tol`; a violation is a fatal assertion failure
carrying `np.max(one_deviation)`, which the surrounding iteration
propagates as a `gnAssertFailed` error — never silently ignored. -/
theorem apply_map_partition_of_unity {F a d n t : ℕ} (tol : ℚ)
    (basisFns : Fin F → (Fin d → ℚ) → ℚ) (invTVdm : Fin F → Fin F → ℚ)
    (srcBdryNodes : Fin a → Fin n → Fin F → ℚ)
    (u : Fin d → Fin n → Fin t → ℚ) :
    ((∃ mp, applyMap tol basisFns invTVdm srcBdryNodes u = .ok mp) ↔
      ∀ e i, |(∑ f, intpCoeffs basisFns invTVdm u f e i) - 1| < tol)
    ∧ (∀ dev, applyMap tol basisFns invTVdm srcBdryNodes u = .error dev →
        dev = maxOneDeviation basisFns invTVdm u ∧
        ¬ ∀ e i, oneDeviation basisFns invTVdm u e i < tol)
    ∧ (∀ dev
        (dfi : (Fin d → Fin n → Fin t → ℚ) → (Fin a → Fin n → Fin t → ℚ) →
          (Fin d → Fin n → Fin t → ℚ))
        (tgt : Fin a → Fin n → Fin t → ℚ) (niter : ℕ),
        applyMap tol basisFns invTVdm srcBdryNodes u = .error dev →
        gaussNewtonIteration (applyMap tol basisFns invTVdm srcBdryNodes)
          dfi tgt tol niter u = .error (.gnAssertFailed dev)) := by
  refine ⟨?_, ?_, ?_⟩
  · rw [applyMap]
    by_cases h : ∀ e i, oneDeviation basisFns invTVdm u e i < tol
    · rw [if_pos h]
      exact ⟨fun _ => fun e i => h e i, fun _ => ⟨_, rfl⟩⟩
    · rw [if_neg h]
      constructor
      · rintro ⟨mp, hmp⟩; cases hmp
      · intro hall
        exact absurd (fun e i => hall e i) h
  · intro dev hdev
    rw [applyMap] at hdev
    by_cases h : ∀ e i, oneDeviation basisFns invTVdm u e i < tol
    · rw [if_pos h] at hdev; cases hdev
    · rw [if_neg h] at hdev
      cases hdev
      exact ⟨rfl, h⟩
  · intro dev dfi tgt niter hdev
    rw [gaussNewtonIteration, hdev]

/-- Witness for C4: a concrete basis (the zero function) violating the
partition of unity, with the iteration failing fatally on it. -/
theorem apply_map_partition_of_unity_witness :
    gaussNewtonIteration (a := 1) (d := 1) (n := 1) (t := 1)
      (applyMap 1 (fun (_ : Fin 1) (_ : Fin 1 → ℚ) => (0 : ℚ))
        (fun _ _ => 1) (fun _ _ _ => 0))
      (fun _ r => r) (fun _ _ _ => 0) 1 0 (fun _ _ _ => 0) =
      .error (.gnAssertFailed (maxOneDeviation (n := 1) (t := 1)
        (fun (_ : Fin 1) (_ : Fin 1 → ℚ) => (0 : ℚ)) (fun _ _ => 1)
        (fun _ _ _ => 0))) := by
  have hcond : ¬ ∀ (e : Fin 1) (i : Fin 1),
      oneDeviation (fun (_ : Fin 1) (_ : Fin 1 → ℚ) => (0 : ℚ)) (fun _ _ => 1)
        (fun _ _ _ => (0 : ℚ)) e i < 1 := by
    intro hall
    have h00 := hall 0 0
    rw [oneDeviation] at h00
    norm_num [intpCoeffs, Fin.sum_univ_one] at h00
  have herr : applyMap (a := 1) (n := 1) (t := 1) 1
      (fun (_ : Fin 1) (_ : Fin 1 → ℚ) => (0 : ℚ)) (fun _ _ => 1)
      (fun _ _ _ => 0) (fun _ _ _ => 0) =
      .error (maxOneDeviation (n := 1) (t := 1)
        (fun (_ : Fin 1) (_ : Fin 1 → ℚ) => (0 : ℚ)) (fun _ _ => 1)
        (fun _ _ _ => 0)) := by
    rw [applyMap, if_neg hcond]
  exact (apply_map_partition_of_unity 1
    (fun (_ : Fin 1) (_ : Fin 1 → ℚ) => (0 : ℚ)) (fun _ _ => 1)
    (fun _ _ _ => 0) (fun _ _ _ => 0)).2.2 _
    (fun _ r => r) (fun _ _ _ => 0) 0 herr

/-! ### Connection builder lemmas (claims C6 and C10) -/

theorem except_bind_ok {ε α β : Type} (x : Except ε α) (f : α → Except ε β) (b : β) :
    x >>= f = .ok b ↔ ∃ a, x = .ok a ∧ f a = .ok b := by
  cases x <;> simp [Bind.bind, Except.bind]

theorem except_mapError_ok {ε ε' α : Type} (x : Except ε α) (f : ε → ε') (b : α) :
    x.mapError f = .ok b ↔ x = .ok b := by
  cases x <;> simp [Except.mapError]

theorem except_map_ok {ε α β : Type} (x : Except ε α) (f : α → β) (b : β) :
    x.map f = .ok b ↔ ∃ a, x = .ok a ∧ b = f a := by
  cases x <;> simp [Except.map, eq_comm]

theorem foldlM_except_inv {α σ ε : Type} (Inv : σ → Prop) (f : σ → α → Except ε σ)
    (hf : ∀ s x s', f s x = .ok s' → Inv s → Inv s') :
    ∀ (l : List α) (s s' : σ), l.foldlM f s = .ok s' → Inv s → Inv s' := by
  intro l
  induction l with
  | nil =>
      intro s s' h hs
      rw [List.foldlM_nil] at h
      cases h
      exact hs
  | cons x xs ih =>
      intro s s' h hs
      rw [List.foldlM_cons, except_bind_ok] at h
      rcases h with ⟨s1, hs1, h⟩
      exact ih s1 s' h (hf s x s1 hs1 hs)

/-- Every exit of the per-face builder body either keeps the accumulated
batch lists unchanged (the silent-skip edge case) or extends exactly the
target group's list with the cross-face matcher's output. -/
theorem processFace_cases
    (cfb : ℕ → ℕ → List ℤ → List ℤ → Except MatchError (List InterpolationBatch))
    (input : OppositeFaceInput) (srcLookup : ℤ → ℕ → ℤ)
    (iSrc iTgt iFace : ℕ) (adj : AdjGroup)
    (parts parts' : ℕ → List InterpolationBatch)
    (h : processFace cfb input srcLookup iSrc iTgt iFace adj parts = .ok parts') :
    parts' = parts ∨ ∃ ti si bs, cfb iTgt iSrc ti si = .ok bs ∧
      parts' = Function.update parts iTgt (parts iTgt ++ bs) := by
  unfold processFace at h
  rw [except_bind_ok] at h
  rcases h with ⟨fb, -, h⟩
  simp only [throw, throwThe, MonadExceptOf.throw, pure, Except.pure] at h
  split at h
  · cases h
    exact Or.inl rfl
  · right
    split at h
    · split at h
      · rw [except_bind_ok] at h
        rcases h with ⟨ti, -, h⟩
        rw [except_bind_ok] at h
        rcases h with ⟨bs, hbs, h⟩
        rw [except_mapError_ok] at hbs
        cases h
        exact ⟨ti, _, bs, hbs, rfl⟩
      · rw [except_bind_ok] at h
        rcases h with ⟨ti, hti, -⟩
        cases hti
    · rw [except_bind_ok] at h
      rcases h with ⟨ti, -, h⟩
      rw [except_bind_ok] at h
      rcases h with ⟨bs, hbs, h⟩
      rw [except_mapError_ok] at hbs
      cases h
      exact ⟨ti, _, bs, hbs, rfl⟩

/-- Same for the per-local-group body of the partition builder. -/
theorem processLocalGrp_cases
    (cfb : ℕ → ℕ → List ℤ → List ℤ → Except MatchError (List InterpolationBatch))
    (input : PartitionInput) (rgi : RemoteGroupInfo) (ipag : InterPartAdjGroup)
    (iLocalGrps : List ℕ) (g : ℕ) (parts parts' : ℕ → List InterpolationBatch)
    (h : processLocalGrp cfb input rgi ipag iLocalGrps g parts = .ok parts') :
    ∃ ti si bs, cfb g ipag.igroup ti si = .ok bs ∧
      parts' = Function.update parts g (parts g ++ bs) := by
  unfold processLocalGrp at h
  simp only [throw, throwThe, MonadExceptOf.throw, pure, Except.pure] at h
  split at h
  · cases h
  · split at h
    · cases h
    · rw [except_bind_ok] at h
      rcases h with ⟨bs, hbs, h⟩
      rw [except_mapError_ok] at hbs
      cases h
      exact ⟨_, _, bs, hbs, rfl⟩

/-- Accumulated batch lists where every batch has `to_element_face = None`. -/
def partsFaceNone (parts : ℕ → List InterpolationBatch) : Prop :=
  ∀ j, ∀ b ∈ parts j, b.toElementFace = none

theorem partsFaceNone_update {parts : ℕ → List InterpolationBatch} {iT : ℕ}
    {bs : List InterpolationBatch} (hp : partsFaceNone parts)
    (hbs : ∀ b ∈ bs, b.toElementFace = none) :
    partsFaceNone (Function.update parts iT (parts iT ++ bs)) := by
  intro j b hb
  by_cases hji : j = iT
  · subst hji
    rw [Function.update_same] at hb
    rcases List.mem_append.mp hb with hb | hb
    · exact hp j b hb
    · exact hbs b hb
  · rw [Function.update_noteq hji] at hb
    exact hp j b hb

theorem buildOppositeFaceGroups_valid
    (cfb : ℕ → ℕ → List ℤ → List ℤ → Except MatchError (List InterpolationBatch))
    (input : OppositeFaceInput) (parts : ℕ → List InterpolationBatch)
    (h : buildOppositeFaceGroups cfb input = .ok parts) :
    validRestriction input = true := by
  rw [buildOppositeFaceGroups] at h
  by_cases hv : validRestriction input = true
  · exact hv
  · rw [if_neg hv] at h
    cases h

theorem buildOppositeFaceGroups_faceNone
    (cfb : ℕ → ℕ → List ℤ → List ℤ → Except MatchError (List InterpolationBatch))
    (input : OppositeFaceInput) (parts : ℕ → List InterpolationBatch)
    (hcfb : ∀ i j ti si bs, cfb i j ti si = .ok bs → ∀ b ∈ bs, b.toElementFace = none)
    (h : buildOppositeFaceGroups cfb input = .ok parts) :
    partsFaceNone parts := by
  rw [buildOppositeFaceGroups] at h
  by_cases hv : validRestriction input = true
  · rw [if_pos hv] at h
    refine foldlM_except_inv partsFaceNone _ ?_ _ _ _ h (fun j b hb => absurd hb (List.not_mem_nil b))
    intro s iSrc s' hstep hs
    refine foldlM_except_inv partsFaceNone _ ?_ _ _ _ hstep hs
    intro s2 iTgt s2' hstep2 hs2
    refine foldlM_except_inv partsFaceNone _ ?_ _ _ _ hstep2 hs2
    intro s3 adj s3' hstep3 hs3
    refine foldlM_except_inv partsFaceNone _ ?_ _ _ _ hstep3 hs3
    intro s4 iFace s4' hstep4 hs4
    rcases processFace_cases cfb input _ iSrc iTgt iFace adj s4 s4' hstep4 with rfl | ⟨ti, si, bs, hbs, rfl⟩
    · exact hs4
    · exact partsFaceNone_update hs4 (hcfb _ _ _ _ _ hbs)
  · rw [if_neg hv] at h
    cases h

theorem buildPartitionGroups_faceNone
    (cfb : ℕ → ℕ → List ℤ → List ℤ → Except MatchError (List InterpolationBatch))
    (fgi : List ℤ → List ℕ) (input : PartitionInput)
    (parts : ℕ → List InterpolationBatch)
    (hcfb : ∀ i j ti si bs, cfb i j ti si = .ok bs → ∀ b ∈ bs, b.toElementFace = none)
    (h : buildPartitionGroups cfb fgi input = .ok parts) :
    partsFaceNone parts := by
  rw [buildPartitionGroups] at h
  by_cases hv : input.localNVolGroups = input.localNBdryGroups
  · rw [if_pos hv] at h
    refine foldlM_except_inv partsFaceNone _ ?_ _ _ _ h (fun j b hb => absurd hb (List.not_mem_nil b))
    intro s rgi s' hstep hs
    refine foldlM_except_inv partsFaceNone _ ?_ _ _ _ hstep hs
    intro s2 ipag s2' hstep2 hs2
    refine foldlM_except_inv partsFaceNone _ ?_ _ _ _ hstep2 hs2
    intro s3 g s3' hstep3 hs3
    rcases processLocalGrp_cases cfb input rgi ipag _ g s3 s3' hstep3 with ⟨ti, si, bs, hbs, rfl⟩
    exact partsFaceNone_update hs3 (hcfb _ _ _ _ _ hbs)
  · rw [if_neg hv] at h
    cases h

theorem validRestriction_isSome (input : OppositeFaceInput)
    (h : validRestriction input = true) :
    ∀ gb ∈ input.vbcGroups, ∀ b ∈ gb, b.toElementFace.isSome = true := by
  rw [validRestriction, Bool.and_eq_true, Bool.and_eq_true] at h
  have hall := h.1.1
  rw [List.all_eq_true] at hall
  intro gb hgb b hb
  obtain ⟨i, hi, hgbi⟩ := List.getElem_of_mem hgb
  have hmem : i ∈ List.range input.vbcGroups.length := List.mem_range.mpr hi
  have := hall i hmem
  rw [List.all_eq_true] at this
  have hgd : input.vbcGroups.getD i [] = gb := by
    rw [List.getD_eq_getElem input.vbcGroups [] hi]
    exact hgbi
  rw [hgd] at this
  have := this b hb
  rw [Bool.and_eq_true] at this
  exact this.2

theorem processUnitNodes_faceNone {d n t : ℕ} (tol : ℚ) (iSrcGrp : ℕ)
    (tgtIdx srcIdx : Fin n → ℤ) (u : Fin d → Fin n → Fin t → ℚ)
    (bs : List InterpolationBatch)
    (h : processUnitNodes tol iSrcGrp tgtIdx srcIdx u = .ok bs) :
    ∀ b ∈ bs, b.toElementFace = none := by
  rw [processUnitNodes] at h
  cases haux : findSrcUnitNodesBatches u tol iSrcGrp tgtIdx srcIdx with
  | none => rw [haux] at h; cases h
  | some bs0 =>
      rw [haux] at h
      cases h
      rw [findSrcUnitNodesBatches] at haux
      cases haux2 : findSrcUnitNodesBatchesAux u tol n (List.finRange n) with
      | none => rw [haux2] at haux; cases haux
      | some gs =>
          rw [haux2, Option.map_some', Option.some.injEq] at haux
          intro b hb
          rw [← haux, List.mem_map] at hb
          rcases hb with ⟨g, -, rfl⟩
          rfl

theorem makeCrossFaceBatches_faceNone {a n s t d : ℕ} (tgtDim : ℕ) (eps : ℚ)
    (iSrcGrp : ℕ) (unx : Fin d → Fin s → ℚ) (tgt : Fin a → Fin n → Fin t → ℚ)
    (src : Fin a → Fin n → Fin s → ℚ) (tgtIdx srcIdx : Fin n → ℤ)
    (gn : ℚ → Except MatchError (Fin d → Fin n → Fin t → ℚ))
    (bs : List InterpolationBatch)
    (h : makeCrossFaceBatches tgtDim eps iSrcGrp unx tgt src tgtIdx srcIdx gn = .ok bs) :
    ∀ b ∈ bs, b.toElementFace = none := by
  rw [makeCrossFaceBatches] at h
  by_cases h0 : tgtDim = 0
  · rw [if_pos h0] at h
    cases h
    intro b hb
    rcases List.mem_singleton.mp hb with rfl
    rfl
  · rw [if_neg h0] at h
    cases hm : findSrcUnitNodesByMatching (10000 * eps) tgt src unx with
    | some u =>
        simp only [hm] at h
        exact processUnitNodes_faceNone _ _ _ _ _ _ h
    | none =>
        simp only [hm] at h
        rw [except_bind_ok] at h
        rcases h with ⟨u, -, h⟩
        exact processUnitNodes_faceNone _ _ _ _ _ _ h

/-- **C10**: every `InterpolationBatch` produced by `_make_cross_face_batches`
(and hence by the opposite-face and partition connection builders, whose
batches all come from it) has `to_element_face = None`, even though the
batch data model permits an integer face index; the consumed
volume-to-boundary restriction connection's batches carry a set
`to_element_face`, which `make_opposite_face_connection` asserts on input. -/
theorem to_element_face_none_spec :
    (∀ {a n s t d : ℕ} (tgtDim : ℕ) (eps : ℚ) (iSrcGrp : ℕ)
        (unx : Fin d → Fin s → ℚ) (tgt : Fin a → Fin n → Fin t → ℚ)
        (src : Fin a → Fin n → Fin s → ℚ) (tgtIdx srcIdx : Fin n → ℤ)
        (gn : ℚ → Except MatchError (Fin d → Fin n → Fin t → ℚ))
        (bs : List InterpolationBatch),
      makeCrossFaceBatches tgtDim eps iSrcGrp unx tgt src tgtIdx srcIdx gn = .ok bs →
      ∀ b ∈ bs, b.toElementFace = none)
    ∧ (∀ cfb input conn, makeOppositeFaceConnection cfb input = .ok conn →
        (∀ gb ∈ input.vbcGroups, ∀ b ∈ gb, b.toElementFace.isSome = true) ∧
        ((∀ i j ti si bs, cfb i j ti si = .ok bs → ∀ b ∈ bs, b.toElementFace = none) →
          ∀ gb ∈ conn.groups, ∀ b ∈ gb, b.toElementFace = none))
    ∧ (∀ cfb fgi input conn, makePartitionConnection cfb fgi input = .ok conn →
        (∀ i j ti si bs, cfb i j ti si = .ok bs → ∀ b ∈ bs, b.toElementFace = none) →
        ∀ gb ∈ conn.groups, ∀ b ∈ gb, b.toElementFace = none) := by
  refine ⟨?_, ?_, ?_⟩
  · intro a n s t d tgtDim eps iSrcGrp unx tgt src tgtIdx srcIdx gn bs h
    exact makeCrossFaceBatches_faceNone tgtDim eps iSrcGrp unx tgt src tgtIdx srcIdx gn bs h
  · intro cfb input conn hconn
    rw [makeOppositeFaceConnection, except_map_ok] at hconn
    rcases hconn with ⟨parts, hparts, rfl⟩
    constructor
    · exact validRestriction_isSome input
        (buildOppositeFaceGroups_valid cfb input parts hparts)
    · intro hcfb gb hgb b hb
      have hnone := buildOppositeFaceGroups_faceNone cfb input parts hcfb hparts
      simp only [List.mem_map] at hgb
      rcases hgb with ⟨i, -, rfl⟩
      exact hnone i b hb
  · intro cfb fgi input conn hconn hcfb gb hgb b hb
    rw [makePartitionConnection, except_map_ok] at hconn
    rcases hconn with ⟨parts, hparts, rfl⟩
    have hnone := buildPartitionGroups_faceNone cfb fgi input parts hcfb hparts
    simp only [List.mem_map] at hgb
    rcases hgb with ⟨i, -, rfl⟩
    exact hnone i b hb

/-- Witness for C10, at the concrete one-group input `exInput`. -/
theorem to_element_face_none_spec_witness :
    (∀ gb ∈ exInput.vbcGroups, ∀ b ∈ gb, b.toElementFace.isSome = true) ∧
    ((∀ i j ti si bs,
        (fun (_ _ : ℕ) (_ _ : List ℤ) =>
          (.ok [] : Except MatchError (List InterpolationBatch))) i j ti si = .ok bs →
        ∀ b ∈ bs, b.toElementFace = none) →
      ∀ gb ∈ (BuiltConnection.mk [[]] true [1]).groups, ∀ b ∈ gb,
        b.toElementFace = none) :=
  to_element_face_none_spec.2.1 (fun _ _ _ _ => .ok []) exInput
    (BuiltConnection.mk [[]] true [1]) rfl

/-- **C6 (amended)**: every connection assembled by the opposite-face
builder or the partition builder literally carries
`is_surjective = True`.  Coverage of the full target element set by the
union of `to_element_indices` is *not* checked or guaranteed by the code
(it relies on the closed/periodic-mesh assumption); the counterexample
exhibits a successfully built connection flagged surjective whose batches
cover none of the target's elements. -/
theorem builders_is_surjective :
    (∀ cfb input conn, makeOppositeFaceConnection cfb input = .ok conn →
      conn.isSurjective = true)
    ∧ (∀ cfb fgi input conn, makePartitionConnection cfb fgi input = .ok conn →
      conn.isSurjective = true) := by
  constructor
  · intro cfb input conn hconn
    rw [makeOppositeFaceConnection, except_map_ok] at hconn
    rcases hconn with ⟨parts, -, rfl⟩
    rfl
  · intro cfb fgi input conn hconn
    rw [makePartitionConnection, except_map_ok] at hconn
    rcases hconn with ⟨parts, -, rfl⟩
    rfl

/-- Witness for the amended C6, at the concrete input `exInput`. -/
theorem builders_is_surjective_witness :
    (BuiltConnection.mk [[]] true [1]).isSurjective = true :=
  builders_is_surjective.1 (fun _ _ _ _ => .ok []) exInput
    (BuiltConnection.mk [[]] true [1]) rfl

/-- Counterexample to C6 as stated: on a valid one-group restriction input
whose mesh has no interior adjacency (`exInput`), the opposite-face builder
succeeds and returns a connection with `is_surjective = True` whose batch
lists are empty — the union of its `to_element_indices` is empty and does
not equal the one-element target set. -/
theorem builders_surjective_counterexample :
    makeOppositeFaceConnection (fun _ _ _ _ => .ok []) exInput =
      .ok (BuiltConnection.mk [[]] true [1]) ∧
    (BuiltConnection.mk [[]] true [1]).isSurjective = true ∧
    ¬ coversTarget (BuiltConnection.mk [[]] true [1]) :=
  ⟨rfl, rfl, by decide⟩

/-! ### L2-projection inverse (claims C7 and C8) -/

theorem batchWeightsGroupCheck_ok (gs : List ProjGroup) :
    batchWeightsGroupCheck gs = .ok () ↔ ∀ g ∈ gs, g.isInterpolatory = true := by
  induction gs with
  | nil => simp [batchWeightsGroupCheck]
  | cons g gs ih =>
      rw [batchWeightsGroupCheck]
      by_cases hg : g.isInterpolatory
      · rw [if_pos hg, ih]
        constructor
        · intro hall g' hg'
          rcases List.mem_cons.mp hg' with rfl | hg'
          · exact hg
          · exact hall g' hg'
        · intro hall g' hg'
          exact hall g' (List.mem_cons_of_mem g hg')
      · rw [if_neg hg]
        constructor
        · intro h; cases h
        · intro hall
          exact absurd (hall g (List.mem_cons_self g gs)) hg

/-- **C7 (amended)**: constructing the L2-projection inverse of a direct
connection succeeds iff the two discretizations' dimensions agree and every
target (`to_discr`) group has an orthonormal basis — these are the only
fatal conditions at construction; on success the result has
`from_discr = conn.to_discr` and `to_discr = conn.from_discr`.  The
non-interpolatory rejection is *not* part of construction: it is raised by
the batch-weight computation (`_batch_weights`, run at application time),
which fails exactly when some group of the inverse's target side (the
forward connection's `from_discr`) is not interpolatory. -/
theorem l2_projection_inverse_init_spec (c : FwdConn) (s : Bool) :
    ((∃ r, l2ProjectionInverse s (.direct c) = .ok r) ↔
      (c.fromDiscr.dim = c.toDiscr.dim ∧
        ∀ g ∈ c.toDiscr.groups, g.isOrthonormalBasis = true))
    ∧ (∀ r, l2ProjectionInverse s (.direct c) = .ok r →
        r = .l2inv c c.toDiscr c.fromDiscr s)
    ∧ ((batchWeightsGroupCheck c.fromDiscr.groups = .ok ()) ↔
        ∀ g ∈ c.fromDiscr.groups, g.isInterpolatory = true) := by
  refine ⟨?_, ?_, batchWeightsGroupCheck_ok c.fromDiscr.groups⟩
  · rw [l2ProjectionInverse]
    by_cases hdim : c.fromDiscr.dim ≠ c.toDiscr.dim
    · rw [if_pos hdim]
      constructor
      · rintro ⟨r, hr⟩; cases hr
      · rintro ⟨hd, -⟩
        exact absurd hd hdim
    · rw [if_neg hdim]
      by_cases hall : c.toDiscr.groups.all (fun g => g.isOrthonormalBasis) = true
      · rw [if_neg (by rw [hall]; exact fun h => h rfl)]
        rw [List.all_eq_true] at hall
        exact ⟨fun _ => ⟨not_not.mp hdim, hall⟩, fun _ => ⟨_, rfl⟩⟩
      · rw [if_pos (by rw [Bool.not_eq_true] at hall; rw [hall]; exact Bool.false_ne_true)]
        constructor
        · rintro ⟨r, hr⟩; cases hr
        · rintro ⟨-, hg⟩
          rw [← List.all_eq_true] at hg
          exact absurd hg hall
  · rw [l2ProjectionInverse]
    intro r hr
    by_cases hdim : c.fromDiscr.dim ≠ c.toDiscr.dim
    · rw [if_pos hdim] at hr; cases hr
    · rw [if_neg hdim] at hr
      by_cases hall : c.toDiscr.groups.all (fun g => g.isOrthonormalBasis) = true
      · rw [if_neg (by rw [hall]; exact fun h => h rfl)] at hr
        cases hr
        rfl
      · rw [if_pos (by rw [Bool.not_eq_true] at hall; rw [hall]; exact Bool.false_ne_true)] at hr
        cases hr

/-- Witness for the amended C7: a concrete valid connection (dimension 0,
no groups) and the concrete connection `cC7` on which construction
succeeds while the batch-weight group check rejects. -/
theorem l2_projection_inverse_init_spec_witness :
    ((∃ r, l2ProjectionInverse false (.direct cC7) = .ok r) ↔
      (cC7.fromDiscr.dim = cC7.toDiscr.dim ∧
        ∀ g ∈ cC7.toDiscr.groups, g.isOrthonormalBasis = true)) ∧
    ((batchWeightsGroupCheck cC7.fromDiscr.groups = .ok ()) ↔
      ∀ g ∈ cC7.fromDiscr.groups, g.isInterpolatory = true) :=
  ⟨(l2_projection_inverse_init_spec cC7 false).1,
   (l2_projection_inverse_init_spec cC7 false).2.2⟩

/-- Counterexample to C7 as stated: on `cC7` — equal dimensions, orthonormal
target basis, but a non-interpolatory group in the forward `from_discr` —
construction *succeeds* (the claim says it must raise); the
"element group must be interpolatory" rejection only fires in the
batch-weight computation, i.e. at application time. -/
theorem l2_projection_inverse_init_counterexample :
    l2ProjectionInverse false (.direct cC7) =
      .ok (.l2inv cC7 cC7.toDiscr cC7.fromDiscr false) ∧
    cC7.fromDiscr.groups =
      [{ isOrthonormalBasis := true, isInterpolatory := false }] ∧
    ProjGroup.isInterpolatory
      { isOrthonormalBasis := true, isInterpolatory := false } = false ∧
    batchWeightsGroupCheck cC7.fromDiscr.groups = .error .notInterpolatory := by
  refine ⟨?_, rfl, rfl, rfl⟩
  rw [l2ProjectionInverse]
  rw [if_neg (by decide : ¬ cC7.fromDiscr.dim ≠ cC7.toDiscr.dim)]
  rw [if_neg (by decide :
    ¬ ¬ cC7.toDiscr.groups.all (fun g => g.isOrthonormalBasis) = true)]

theorem l2InvertReversed_spec (s : Bool) :
    ∀ (l : List ConnTree) (rs : List ProjResult),
      l2InvertReversed s l = .ok rs →
      rs.length = l.length ∧
      ∀ i (hi : i < l.length) (hi' : i < rs.reverse.length),
        l2ProjectionInverse s (l.get ⟨i, hi⟩) = .ok (rs.reverse.get ⟨i, hi'⟩) := by
  intro l
  induction l with
  | nil =>
      intro rs h
      rw [l2InvertReversed] at h
      cases h
      exact ⟨rfl, fun i hi _ => absurd hi (by simp)⟩
  | cons c cs ih =>
      intro rs h
      rw [l2InvertReversed, except_bind_ok] at h
      rcases h with ⟨rs', hrs', h⟩
      rw [except_bind_ok] at h
      rcases h with ⟨r, hr, h⟩
      cases h
      obtain ⟨hlen, hpt⟩ := ih rs' hrs'
      have hrev : (rs' ++ [r]).reverse = r :: rs'.reverse := by simp
      refine ⟨by simp [hlen], ?_⟩
      intro i hi hi'
      have hi'' : i < (r :: rs'.reverse).length := by
        rw [← hrev]
        exact hi'
      have hget : (rs' ++ [r]).reverse.get ⟨i, hi'⟩ =
          (r :: rs'.reverse).get ⟨i, hi''⟩ := by
        exact List.get_of_eq hrev ⟨i, hi'⟩
      rw [hget]
      match i with
      | 0 => exact hr
      | i + 1 =>
          have hic : i < cs.length := by simpa using hi
          have hic' : i < rs'.reverse.length := by
            rw [List.length_reverse, hlen]
            exact hic
          exact hpt i hic hic'

/-- **C8**: the L2-projection inverse of an *empty* chained connection is
the same empty chain, returned unchanged; the inverse of a chained
connection with a non-empty link list succeeds iff inverting the links
(in the reversed order the source iterates) succeeds, and then yields a
chained connection whose links are exactly the L2-projection inverses of
the original links in reversed order (`ls.reverse.get i` is the inverse of
link `i`). -/
theorem l2_projection_inverse_chain_spec (s : Bool) :
    (l2ProjectionInverse s (.chained []) = .ok (.orig (.chained [])))
    ∧ (∀ (c : ConnTree) (cs : List ConnTree) (ls : List ProjResult),
        l2InvertReversed s (c :: cs) = .ok ls →
        l2ProjectionInverse s (.chained (c :: cs)) = .ok (.chainedOf ls) ∧
        ls.length = cs.length + 1 ∧
        ∀ i (hi : i < (c :: cs).length) (hi' : i < ls.reverse.length),
          l2ProjectionInverse s ((c :: cs).get ⟨i, hi⟩) =
            .ok (ls.reverse.get ⟨i, hi'⟩)) := by
  constructor
  · rw [l2ProjectionInverse]
  · intro c cs ls h
    obtain ⟨hlen, hpt⟩ := l2InvertReversed_spec s (c :: cs) ls h
    refine ⟨?_, by simpa using hlen, hpt⟩
    rw [l2ProjectionInverse, h]
    rfl

/-- Witness for C8: a concrete one-link chain around a trivially valid
direct connection. -/
theorem l2_projection_inverse_chain_spec_witness :
    l2ProjectionInverse false (.chained [.direct cC8]) =
      .ok (.chainedOf [.l2inv cC8 cC8.toDiscr cC8.fromDiscr false]) ∧
    ([ProjResult.l2inv cC8 cC8.toDiscr cC8.fromDiscr false]).length = 0 + 1 := by
  have hinv : l2ProjectionInverse false (.direct cC8) =
      .ok (.l2inv cC8 cC8.toDiscr cC8.fromDiscr false) := by
    rw [l2ProjectionInverse]
    rw [if_neg (by decide : ¬ cC8.fromDiscr.dim ≠ cC8.toDiscr.dim)]
    rw [if_neg (by decide :
      ¬ ¬ cC8.toDiscr.groups.all (fun g => g.isOrthonormalBasis) = true)]
  have hrev : l2InvertReversed false [.direct cC8] =
      .ok [.l2inv cC8 cC8.toDiscr cC8.fromDiscr false] := by
    rw [l2InvertReversed]
    rw [l2InvertReversed]
    rw [hinv]
    rfl
  have h := (l2_projection_inverse_chain_spec false).2 (.direct cC8) [] _ hrev
  exact ⟨h.1, h.2.1⟩

end Meshmode
